import Mathlib

/-!
# CSB+-tree (`csb.h`): shallow embedding and verified properties

The C++ class `CSBtree` is embedded as pure functions over an explicit tree
state.  Heap objects are addressed by the symbolic pointers of `Ptr`; every
array access is bounds-checked against the declared array size and every
condition the C++ standard leaves undefined (out-of-range subscript, null
dereference, access through a pointer of the wrong node type, read of
never-written storage) or that aborts (`assert`) ends the run with a `Fault`.
The `Traced` versions of the leaf insertion go on past a store outside the
array, which they report, and so give the contents the run leaves in the leaf.
-/

namespace CSB

/-- `using Key = uint64_t`. -/
abbrev Key := Nat

/-- `using Value = uint64_t`. -/
abbrev Value := Nat

/-- `using value_type = std::pair<uint64_t, uint64_t>`. -/
abbrev value_type := Key × Value

/-- Symbolic addresses: the null pointer, the `LeafNode` allocated by the
constructor, the member `buf`, the `g`-th `NodeGroup` allocated with `new`,
and the node in slot `offset` of that group. -/
inductive Ptr where
  | null
  | heapLeaf
  | buf
  | group (g : Nat)
  | node (g : Nat) (offset : Nat)
deriving DecidableEq, Repr

/-- Ways a run of the C++ code leaves defined behaviour. -/
inductive Fault where
  | outOfBounds (index : Int)
  | nullDeref
  | badCast
  | uninitialized
  | assertFailed
  | outOfFuel
  | unfinished
deriving DecidableEq, Repr

deriving instance DecidableEq for Except

/-- Fixed-size array `std::array<T, n>` / `T[n]`. -/
abbrev CArray (α : Type) (n : Nat) := Mathlib.Vector α n

/-- Checked subscript read `a[i]`. -/
def readAt {α : Type} {n : Nat} (a : CArray α n) (i : Int) : Except Fault α :=
  if h : 0 ≤ i ∧ i.toNat < n then .ok (a.get ⟨i.toNat, h.2⟩) else .error (.outOfBounds i)

/-- Checked subscript write `a[i] = x`. -/
def writeAt {α : Type} {n : Nat} (a : CArray α n) (i : Int) (x : α) :
    Except Fault (CArray α n) :=
  if h : 0 ≤ i ∧ i.toNat < n then .ok (a.set ⟨i.toNat, h.2⟩ x) else .error (.outOfBounds i)

/-- Conversion of an unsigned 64-bit value to `int` (two's complement, 32 bits). -/
def toInt32 (x : Nat) : Int :=
  if x % 2 ^ 32 < 2 ^ 31 then ((x % 2 ^ 32 : Nat) : Int) else ((x % 2 ^ 32 : Nat) : Int) - 2 ^ 32

/-- Subtraction on `uint64_t`. -/
def u64sub (a b : Nat) : Nat := (a % 2 ^ 64 + 2 ^ 64 - b % 2 ^ 64) % 2 ^ 64

/-- `struct NodeGroupOffsetPair`. -/
structure NodeGroupOffsetPair where
  ng : Ptr
  offset : Int
deriving DecidableEq, Repr

/-- `struct InternalNode`; `num_children` is a `uint8_t`. -/
structure InternalNode where
  children : CArray Nat 14
  child_node_group : Ptr
  num_children : Nat
deriving DecidableEq

/-- `struct LeafNode`; `num_entries` is a `uint64_t`. -/
structure LeafNode where
  kv : CArray value_type 7
  num_entries : Nat
  sibling : Ptr
deriving DecidableEq

/-- `InternalNode{}`: the default member initialisers. -/
def InternalNode.init : InternalNode :=
  { children := Mathlib.Vector.replicate 14 0, child_node_group := .null, num_children := 0 }

/-- `LeafNode{}`: the default member initialisers. -/
def LeafNode.init : LeafNode :=
  { kv := Mathlib.Vector.replicate 7 (0, 0), num_entries := 0, sibling := .null }

/-- `union NodeGroupArray`, tagged by the member last written; a slot is
`none` until a node has been stored in it. -/
inductive NodeGroupArray where
  | internal_nodes (a : CArray (Option InternalNode) 14)
  | leaf_nodes (a : CArray (Option LeafNode) 14)
deriving DecidableEq

/-- `struct NodeGroup`; `num_used` is a `uint8_t`. -/
structure NodeGroup where
  array : NodeGroupArray
  num_used : Nat
  internal : Bool
deriving DecidableEq

/-- `new NodeGroup{internal_}`: `num_used(0)`, the flag, and an array nobody
has written yet (tagged with the kind the flag announces). -/
def NodeGroup.new (internal_ : Bool) : NodeGroup :=
  { array := if internal_ then .internal_nodes (Mathlib.Vector.replicate 14 none)
             else .leaf_nodes (Mathlib.Vector.replicate 14 none)
    num_used := 0
    internal := internal_ }

/-- `class iterator`: `ln_` and `offset`. -/
structure iterator where
  ln_ : Ptr
  offset : Int
deriving DecidableEq, Repr

/-- `struct static_vector`: `size` and twelve slots, unwritten at first. -/
structure static_vector where
  size : Int
  array : CArray (Option NodeGroupOffsetPair) 12
deriving DecidableEq

/-- A `static_vector` as declared by `static_vector path;`. -/
def static_vector.init : static_vector :=
  { size := 0, array := Mathlib.Vector.replicate 12 none }

/-- The data members of `CSBtree` together with the heap they point into:
`heapLeaf` is the object made by `new LeafNode{}` in the constructor, `buf`
holds an `InternalNode` once one has been placement-constructed there, and
`groups` lists the node groups in allocation order.  `height` is an `int`
that starts at 0 and is only ever incremented. -/
structure CSBtree where
  root_ : Ptr
  height : Nat
  heapLeaf : LeafNode
  buf : Option InternalNode
  groups : List NodeGroup
deriving DecidableEq

/-- `CSBtree() : root_(new LeafNode{}) {}` with `int height = 0`. -/
def create : CSBtree :=
  { root_ := .heapLeaf, height := 0, heapLeaf := LeafNode.init, buf := none, groups := [] }

/-- `end()`: `iterator(nullptr, -1)`. -/
def end_ : iterator := { ln_ := .null, offset := -1 }

/-- Read through a `NodeGroup*`. -/
def loadGroup (t : CSBtree) (p : Ptr) : Except Fault NodeGroup :=
  match p with
  | .null => .error .nullDeref
  | .group g =>
    match t.groups[g]? with
    | some ng => .ok ng
    | none => .error .uninitialized
  | _ => .error .badCast

/-- Read through a `LeafNode*`. -/
def loadLeaf (t : CSBtree) (p : Ptr) : Except Fault LeafNode :=
  match p with
  | .null => .error .nullDeref
  | .heapLeaf => .ok t.heapLeaf
  | .node g offset => do
    let ng ← loadGroup t (.group g)
    match ng.array with
    | .leaf_nodes a =>
      match ← readAt a (offset : Int) with
      | some ln => .ok ln
      | none => .error .uninitialized
    | .internal_nodes _ => .error .badCast
  | _ => .error .badCast

/-- Read through an `InternalNode*`. -/
def loadInternal (t : CSBtree) (p : Ptr) : Except Fault InternalNode :=
  match p with
  | .null => .error .nullDeref
  | .buf =>
    match t.buf with
    | some n => .ok n
    | none => .error .uninitialized
  | .node g offset => do
    let ng ← loadGroup t (.group g)
    match ng.array with
    | .internal_nodes a =>
      match ← readAt a (offset : Int) with
      | some n => .ok n
      | none => .error .uninitialized
    | .leaf_nodes _ => .error .badCast
  | _ => .error .badCast

/-- Write through a `LeafNode*`. -/
def storeLeaf (t : CSBtree) (p : Ptr) (ln : LeafNode) : Except Fault CSBtree :=
  match p with
  | .null => .error .nullDeref
  | .heapLeaf => .ok { t with heapLeaf := ln }
  | .node g offset => do
    let ng ← loadGroup t (.group g)
    match ng.array with
    | .leaf_nodes a =>
      let a' ← writeAt a (offset : Int) (some ln)
      .ok { t with groups := t.groups.set g { ng with array := .leaf_nodes a' } }
    | .internal_nodes _ => .error .badCast
  | _ => .error .badCast

/-- The loop `for (uint8_t i = 0; i < in->num_children; ++i) if (k <= in->children[i]) ...`
of `searchInternalNode` (lines 32-36) and of `find_helper` (lines 62-66):
`remaining` iterations are left and the counter stands at `i`.  The result is
the index at which the loop body returns, or `none` when the loop runs out. -/
def searchLoop (inode : InternalNode) (k : Key) : Nat → Nat → Except Fault (Option Nat)
  | 0, _ => .ok none
  | remaining + 1, i => do
    let c ← readAt inode.children (i : Int)
    if k ≤ c then .ok (some i) else searchLoop inode k remaining (i + 1)

/-- `searchInternalNode(in, k)` (lines 31-38). -/
def searchInternalNode (inode : InternalNode) (k : Key) : Except Fault NodeGroupOffsetPair := do
  match ← searchLoop inode k inode.num_children 0 with
  | some i => .ok { ng := inode.child_node_group, offset := (i : Int) }
  | none => .ok { ng := .null, offset := -1 }

/-- The loop `for (uint8_t i = 0; i < ln->num_entries; ++i) if (k == ln->kv[i].first) ...`
of `find` (lines 136-140) and of `find_helper` (lines 52-56). -/
def scanLeaf (ln : LeafNode) (k : Key) : Nat → Nat → Except Fault (Option Nat)
  | 0, _ => .ok none
  | remaining + 1, i => do
    let e ← readAt ln.kv (i : Int)
    if k = e.1 then .ok (some i) else scanLeaf ln k remaining (i + 1)

/-- The address `&node_group->array.leaf_nodes[offset]` (or `internal_nodes[offset]`). -/
def slotPtr (node_group : Ptr) (offset : Int) : Except Fault Ptr :=
  match node_group with
  | .null => .error .nullDeref
  | .group g => if 0 ≤ offset ∧ offset < 14 then .ok (.node g offset.toNat)
                else .error (.outOfBounds offset)
  | _ => .error .badCast

/-- Lines 42-44 of `find_helper`:
`if (out_path) out_path->array[out_path->size++] = {node_group, offset};`. -/
def recordPath (out_path : Option static_vector) (node_group : Ptr) (offset : Int) :
    Except Fault (Option static_vector) :=
  match out_path with
  | some p => do
    let a ← writeAt p.array p.size (some { ng := node_group, offset := offset })
    .ok (some { size := p.size + 1, array := a })
  | none => .ok none

/-- `find_helper(k, node_group, offset, depth, out_path)` (lines 40-68).  The
recursion is on `fuel`; a call at `depth ≤ height` needs `height - depth + 1`
units.  The second component of the result is `*out_path` after the call. -/
def find_helper (t : CSBtree) (k : Key) :
    Nat → Ptr → Int → Nat → Option static_vector →
      Except Fault (iterator × Option static_vector)
  | 0, _, _, _, _ => .error .outOfFuel
  | fuel + 1, node_group, offset, depth, out_path => do
    let out_path' ← recordPath out_path node_group offset
    let ng ← loadGroup t node_group
    if depth = t.height then
      if ng.internal then .error .assertFailed
      else do
        let p ← slotPtr node_group offset
        if out_path.isSome then .ok ({ ln_ := p, offset := 0 }, out_path')
        else do
          let ln ← loadLeaf t p
          match ← scanLeaf ln k ln.num_entries 0 with
          | some i => .ok ({ ln_ := p, offset := (i : Int) }, out_path')
          | none => .ok (end_, out_path')
    else
      if !ng.internal then .error .assertFailed
      else do
        let p ← slotPtr node_group offset
        let inode ← loadInternal t p
        match ← searchLoop inode k inode.num_children 0 with
        | some i => do
          let r ← find_helper t k fuel inode.child_node_group (i : Int) (depth + 1) none
          .ok (r.1, out_path')
        | none => .ok (end_, out_path')

/-- `find(k)` (lines 133-149). -/
def find (t : CSBtree) (k : Key) : Except Fault iterator :=
  if t.height = 0 then do
    let ln ← loadLeaf t t.root_
    match ← scanLeaf ln k ln.num_entries 0 with
    | some i => .ok { ln_ := t.root_, offset := (i : Int) }
    | none => .ok end_
  else do
    let inode ← loadInternal t t.root_
    let x ← searchInternalNode inode k
    if x.ng ≠ .null then do
      let r ← find_helper t k t.height x.ng x.offset 1 none
      .ok r.1
    else .ok end_

/-- `iterator::operator*` (lines 82-84): `ln_->kv[offset]`. -/
def iterator.deref (t : CSBtree) (it : iterator) : Except Fault value_type := do
  let ln ← loadLeaf t it.ln_
  readAt ln.kv it.offset

/-- The loop of `insertIntoUnderfulLeafNode` (lines 158-160),
`for (; back >= 0 && k > ln->kv[back].first; --back) ln->kv[back + 1] = ln->kv[back];`
entered with `back = j - 1`.  Returns the array and the final `back`. -/
def shiftLoop (k : Key) : Nat → CArray value_type 7 → Except Fault (CArray value_type 7 × Int)
  | 0, kv => .ok (kv, -1)
  | j + 1, kv => do
    let e ← readAt kv (j : Int)
    if k > e.1 then do
      let kv' ← writeAt kv ((j : Int) + 1) e
      shiftLoop k j kv'
    else .ok (kv, (j : Int))

/-- `insertIntoUnderfulLeafNode(ln, k, v)` (lines 156-164); returns the leaf
as left behind and the returned `back`. -/
def insertIntoUnderfulLeafNode (ln : LeafNode) (k : Key) (v : Value) :
    Except Fault (LeafNode × Int) := do
  let back0 : Int := toInt32 (u64sub ln.num_entries 1)
  let (kv1, back) ← if back0 < 0 then pure (ln.kv, back0) else shiftLoop k (back0.toNat + 1) ln.kv
  let kv2 ← writeAt kv1 back (k, v)
  .ok ({ ln with kv := kv2, num_entries := (ln.num_entries + 1) % 2 ^ 64 }, back)

/-- The copy loops of the root split, `dst[i] = src[base + i]` for `count`
iterations starting at counter `i` (lines 202-204 with `base = 0`, lines
207-209 with `base = mid + 1`). -/
def copyLoop (src : CArray value_type 7) (base : Nat) :
    Nat → Nat → CArray value_type 7 → Except Fault (CArray value_type 7)
  | 0, _, dst => .ok dst
  | count + 1, i, dst => do
    let e ← readAt src ((base + i : Nat) : Int)
    let dst' ← writeAt dst (i : Int) e
    copyLoop src base count (i + 1) dst'

/-- Lines 194-204 of the root split: the new root with its separator, and the
left leaf `lc` after `lc.num_entries = mid` and the first copy loop. -/
def splitLeftCopy (g : Nat) (ln : LeafNode) (lc : LeafNode) :
    Except Fault (InternalNode × LeafNode) := do
  let new_root : InternalNode :=
    { InternalNode.init with num_children := 2, child_node_group := .group g }
  let mid := ln.num_entries / 2 + 1
  let e ← readAt ln.kv (mid : Int)
  let children ← writeAt new_root.children 0 e.1
  let kv ← copyLoop ln.kv 0 (mid + 1) 0 lc.kv
  .ok ({ new_root with children := children }, { lc with num_entries := mid, kv := kv })

/-- Lines 206-209 of the root split: `rc.num_entries` is set and the second
copy loop runs; its assignment target is `lc.kv[i]`. -/
def splitRightCopy (ln : LeafNode) (lc rc : LeafNode) : Except Fault (LeafNode × LeafNode) := do
  let mid := ln.num_entries / 2 + 1
  let rcount := u64sub ln.num_entries mid
  let kv ← copyLoop ln.kv (mid + 1) rcount 0 lc.kv
  .ok ({ lc with kv := kv }, { rc with num_entries := rcount })

/-- What `insert` returns, and the tree it leaves. -/
structure InsertResult where
  it : iterator
  inserted : Bool
  tree : CSBtree
deriving DecidableEq

/-- The new node group with `lc` in slot 0 and `rc` in slot 1. -/
def splitGroup (lc rc : LeafNode) : NodeGroup :=
  { NodeGroup.new false with
    array := .leaf_nodes
      (((Mathlib.Vector.replicate 14 none).set 0 (some lc)).set 1 (some rc)) }

/-- Lines 210-222 of the root split: the new root is constructed in `buf`,
the pair goes into `lc` or `rc`, and `height` is incremented.  `root_` is not
assigned. -/
def splitInstall (t : CSBtree) (g : Nat) (new_root : InternalNode) (lc rc : LeafNode)
    (k : Key) (v : Value) : Except Fault InsertResult := do
  let sep ← readAt new_root.children 0
  if k ≤ sep then do
    let (lc', offset) ← insertIntoUnderfulLeafNode lc k v
    .ok { it := { ln_ := .node g 0, offset := offset }, inserted := true,
          tree := { t with buf := some new_root, groups := t.groups ++ [splitGroup lc' rc],
                           height := t.height + 1 } }
  else do
    let (rc', offset) ← insertIntoUnderfulLeafNode rc k v
    .ok { it := { ln_ := .node g 1, offset := offset }, inserted := true,
          tree := { t with buf := some new_root, groups := t.groups ++ [splitGroup lc rc'],
                           height := t.height + 1 } }

/-- The `else` branch of lines 177-223: the root leaf `ln` has no room. -/
def splitRootLeaf (t : CSBtree) (ln : LeafNode) (k : Key) (v : Value) :
    Except Fault InsertResult := do
  let g := t.groups.length
  let lc0 : LeafNode := { LeafNode.init with sibling := .node g 1 }
  let rc0 : LeafNode := LeafNode.init
  if ln.num_entries ≠ 7 then .error .assertFailed
  else do
    let (new_root, lc1) ← splitLeftCopy g ln lc0
    let (lc2, rc1) ← splitRightCopy ln lc1 rc0
    splitInstall t g new_root lc2 rc1 k v

/-- `insert(k, v)` (lines 166-244).  The code after line 224, reached when
`height != 0`, names `ln` before its declaration and `i` outside its loop and
has no `return`; it is embedded as the fault `unfinished`. -/
def insert (t : CSBtree) (k : Key) (v : Value) : Except Fault InsertResult :=
  if t.height = 0 then do
    let ln ← loadLeaf t t.root_
    if ln.num_entries < 7 then do
      let (ln', back) ← insertIntoUnderfulLeafNode ln k v
      let t' ← storeLeaf t t.root_ ln'
      .ok { it := { ln_ := t.root_, offset := back }, inserted := true, tree := t' }
    else splitRootLeaf t ln k v
  else .error .unfinished

/-- Inserting a list of pairs one at a time, left to right. -/
def insertAll (t : CSBtree) : List (Key × Value) → Except Fault CSBtree
  | [] => .ok t
  | (k, v) :: rest => do
    let r ← insert t k v
    insertAll r.tree rest

/-- A height-0 tree whose root leaf holds the given pairs in slots `0, 1, ...`
(the remaining slots zero, as `LeafNode{}` leaves them). -/
def leafTree (entries : List value_type) : CSBtree :=
  { create with
    heapLeaf :=
      { kv := ⟨(entries ++ List.replicate 7 (0, 0)).take 7, by simp⟩
        num_entries := entries.length
        sibling := .null } }

/-- The pairs in slots `0 .. num_entries - 1` of a leaf, in slot order. -/
def LeafNode.entries (ln : LeafNode) : List value_type :=
  ln.kv.toList.take ln.num_entries

/-- A full root leaf: keys 1..7 in ascending order. -/
def full7 : List value_type := [(1, 10), (2, 20), (3, 30), (4, 40), (5, 50), (6, 60), (7, 70)]

/-- A leaf holding the given pairs, with the given sibling. -/
def leafOf (entries : List value_type) (sibling : Ptr) : LeafNode :=
  { kv := ⟨(entries ++ List.replicate 7 (0, 0)).take 7, by simp⟩
    num_entries := entries.length
    sibling := sibling }

/-- An internal node with two children, separator 4 in `children[0]`, child
group 0: the root the specification describes for keys 1..8. -/
def sampleRoot : InternalNode :=
  { children := (Mathlib.Vector.replicate 14 0).set 0 4
    child_node_group := .group 0
    num_children := 2 }

/-- The height-1 tree the specification describes for keys 1..8: the root
`sampleRoot` in `buf`, left leaf 1..4, right leaf 5..8, sibling-linked. -/
def sampleTree : CSBtree :=
  { root_ := .buf
    height := 1
    heapLeaf := LeafNode.init
    buf := some sampleRoot
    groups :=
      [{ array := .leaf_nodes (((Mathlib.Vector.replicate 14 none).set 0
            (some (leafOf [(1, 10), (2, 20), (3, 30), (4, 40)] (.node 0 1)))).set 1
            (some (leafOf [(5, 50), (6, 60), (7, 70), (8, 80)] .null)))
         num_used := 2
         internal := false }] }

/-! ### Runs that continue past a store outside an array

The functions above stop at the first access outside an array.  The versions
below differ in one point only: a subscript *store* outside the array changes
no slot of that array and is reported (index and value) in a list of stray
stores, after which the run goes on.  Reads outside an array remain faults.
They give the contents the run leaves in the leaf itself. -/

/-- Stores that fell outside their array: subscript and stored pair. -/
abbrev Stray := List (Int × value_type)

/-- Subscript store `a[i] = x` on a `kv` array: inside the array the slot is
written; outside it no slot changes and the store is reported. -/
def storeAt (a : CArray value_type 7) (i : Int) (x : value_type) :
    CArray value_type 7 × Stray :=
  if h : 0 ≤ i ∧ i.toNat < 7 then (a.set ⟨i.toNat, h.2⟩ x, []) else (a, [(i, x)])

/-- The loop of `insertIntoUnderfulLeafNode` (lines 158-160), as `shiftLoop`,
with the store `ln->kv[back + 1] = ln->kv[back]` done by `storeAt`. -/
def Traced.shiftLoop (k : Key) :
    Nat → CArray value_type 7 → Except Fault (CArray value_type 7 × Int × Stray)
  | 0, kv => .ok (kv, -1, [])
  | j + 1, kv => do
    let e ← readAt kv (j : Int)
    if k > e.1 then do
      let w := storeAt kv ((j : Int) + 1) e
      let r ← Traced.shiftLoop k j w.1
      .ok (r.1, r.2.1, w.2 ++ r.2.2)
    else .ok (kv, (j : Int), [])

/-- `insertIntoUnderfulLeafNode(ln, k, v)` (lines 156-164) with the stores done
by `storeAt`: the leaf as left behind, the returned `back`, and the stray
stores. -/
def Traced.insertIntoUnderfulLeafNode (ln : LeafNode) (k : Key) (v : Value) :
    Except Fault (LeafNode × Int × Stray) := do
  let back0 : Int := toInt32 (u64sub ln.num_entries 1)
  let r ← if back0 < 0 then pure (ln.kv, back0, []) else Traced.shiftLoop k (back0.toNat + 1) ln.kv
  let w := storeAt r.1 r.2.1 (k, v)
  .ok ({ ln with kv := w.1, num_entries := (ln.num_entries + 1) % 2 ^ 64 }, r.2.1, r.2.2 ++ w.2)

/-- `insert(k, v)` (lines 166-244) with the leaf insertion of line 174 done by
`Traced.insertIntoUnderfulLeafNode`.  The split path is `splitRootLeaf`
unchanged: it stops at the assertion or at the read of `ln->kv[7]`, and every
store it performs before that is inside its array. -/
def Traced.insert (t : CSBtree) (k : Key) (v : Value) : Except Fault (InsertResult × Stray) :=
  if t.height = 0 then do
    let ln ← loadLeaf t t.root_
    if ln.num_entries < 7 then do
      let r ← Traced.insertIntoUnderfulLeafNode ln k v
      let t' ← storeLeaf t t.root_ r.1
      .ok ({ it := { ln_ := t.root_, offset := r.2.1 }, inserted := true, tree := t' }, r.2.2)
    else do
      let r ← splitRootLeaf t ln k v
      .ok (r, [])
  else .error .unfinished

/-! ### Object layout (the `static_assert`s of lines 127-129) -/

/-- `#define CACHE_LINE_SIZE 128`. -/
def CACHE_LINE_SIZE : Nat := 128

/-- Size and alignment of an object type, in bytes. -/
structure Layout where
  size : Nat
  align : Nat
deriving DecidableEq, Repr

/-- The next multiple of `a` at or after `off`. -/
def alignUp (off a : Nat) : Nat := (off + a - 1) / a * a

/-- The offset just past the last member when the members are laid out in
declaration order, each at the next multiple of its own alignment. -/
def membersEnd (ms : List Layout) : Nat :=
  ms.foldl (fun off x => alignUp off x.align + x.size) 0

/-- The largest alignment among the members. -/
def membersAlign (ms : List Layout) : Nat :=
  ms.foldl (fun a x => max a x.align) 1

/-- A struct: members in declaration order, the size padded to a multiple of
the struct's alignment. -/
def structOf (ms : List Layout) : Layout :=
  { size := alignUp (membersEnd ms) (membersAlign ms), align := membersAlign ms }

/-- A union: as large as its largest member, padded to its alignment. -/
def unionOf (ms : List Layout) : Layout :=
  { size := alignUp (ms.foldl (fun s x => max s x.size) 0) (membersAlign ms)
    align := membersAlign ms }

/-- An array `T[n]` / `std::array<T, n>`. -/
def arrayOf (x : Layout) (n : Nat) : Layout := { size := n * x.size, align := x.align }

/-- `uint64_t`. -/
def uint64_t : Layout := { size := 8, align := 8 }

/-- `uint8_t`. -/
def uint8_t : Layout := { size := 1, align := 1 }

/-- `bool`. -/
def bool_t : Layout := { size := 1, align := 1 }

/-- An object pointer (`NodeGroup*`, `void*`). -/
def pointer_t : Layout := { size := 8, align := 8 }

/-- `std::pair<uint64_t, uint64_t>`. -/
def value_type.layout : Layout := structOf [uint64_t, uint64_t]

/-- `struct LeafNode { std::array<value_type, 7> kv; uint64_t num_entries; void* sibling; }`. -/
def LeafNode.layout : Layout := structOf [arrayOf value_type.layout 7, uint64_t, pointer_t]

/-- `struct InternalNode { std::array<uint64_t, 14> children; NodeGroup* child_node_group;
uint8_t num_children; }`. -/
def InternalNode.layout : Layout := structOf [arrayOf uint64_t 14, pointer_t, uint8_t]

/-- `struct NodeGroup { union { InternalNode internal_nodes[14]; LeafNode leaf_nodes[14]; } array;
uint8_t num_used; bool internal; }`. -/
def NodeGroup.layout : Layout :=
  structOf [unionOf [arrayOf InternalNode.layout 14, arrayOf LeafNode.layout 14], uint8_t, bool_t]

/-! ### A tree of height 2 -/

/-- A height-2 tree: the root in `buf` has one separator 8 over group 0; slot
0 of group 0 is an internal node with separators 4 and 8 over group 1; group
1 holds the leaves 1..4 and 5..8. -/
def tallTree : CSBtree :=
  { root_ := .buf
    height := 2
    heapLeaf := LeafNode.init
    buf := some { children := (Mathlib.Vector.replicate 14 0).set 0 8
                  child_node_group := .group 0
                  num_children := 1 }
    groups :=
      [{ array := .internal_nodes ((Mathlib.Vector.replicate 14 none).set 0
            (some { children := ((Mathlib.Vector.replicate 14 0).set 0 4).set 1 8
                    child_node_group := .group 1
                    num_children := 2 }))
         num_used := 1
         internal := true },
       { array := .leaf_nodes (((Mathlib.Vector.replicate 14 none).set 0
            (some (leafOf [(1, 10), (2, 20), (3, 30), (4, 40)] (.node 1 1)))).set 1
            (some (leafOf [(5, 50), (6, 60), (7, 70), (8, 80)] .null)))
         num_used := 2
         internal := false }] }

end CSB

namespace CSB

/-! ## Lemmas on checked array access and machine arithmetic -/

theorem readAt_nat {α : Type} {n : Nat} (a : CArray α n) (i : Nat) (h : i < n) :
    readAt a (i : Int) = .ok (a.get ⟨i, h⟩) := by
  have hc : 0 ≤ (i : Int) ∧ (i : Int).toNat < n := ⟨Int.natCast_nonneg i, by simpa using h⟩
  unfold readAt
  rw [dif_pos hc]
  simp

theorem writeAt_nat {α : Type} {n : Nat} (a : CArray α n) (i : Nat) (h : i < n) (x : α) :
    writeAt a (i : Int) x = .ok (a.set ⟨i, h⟩ x) := by
  have hc : 0 ≤ (i : Int) ∧ (i : Int).toNat < n := ⟨Int.natCast_nonneg i, by simpa using h⟩
  unfold writeAt
  rw [dif_pos hc]
  simp

theorem toInt32_u64sub_one (n : Nat) (h1 : 1 ≤ n) (h2 : n < 2 ^ 31) :
    toInt32 (u64sub n 1) = ((n - 1 : Nat) : Int) := by
  have e : u64sub n 1 = n - 1 := by
    unfold u64sub
    norm_num at h2 ⊢
    omega
  rw [e]
  unfold toInt32
  have e2 : (n - 1) % 2 ^ 32 = n - 1 := Nat.mod_eq_of_lt (by norm_num at h2 ⊢; omega)
  rw [e2, if_pos (by norm_num at h2 ⊢; omega)]

/-! ## The shifting loop when some key is not below `k` -/

/-- When a slot below `j` holds a key that is not smaller than `k`, the loop
entered at `back = j - 1` stops at a non-negative `back` without leaving the
array. -/
theorem shiftLoop_stops (k : Key) :
    ∀ (j : Nat) (kv : CArray value_type 7), j ≤ 6 →
      (∃ i : Fin 7, i.val < j ∧ k ≤ (kv.get i).1) →
      ∃ (kv' : CArray value_type 7) (b : Nat),
        shiftLoop k j kv = .ok (kv', (b : Int)) ∧ b < j := by
  intro j
  induction j with
  | zero =>
    intro kv _ hex
    obtain ⟨i, hi, _⟩ := hex
    omega
  | succ j ih =>
    intro kv hj hex
    obtain ⟨i, hi, hk⟩ := hex
    have hj7 : j < 7 := by omega
    by_cases hgt : k > (kv.get ⟨j, hj7⟩).1
    · have hij : i.val ≠ j := by
        intro e
        have : i = ⟨j, hj7⟩ := Fin.ext e
        rw [this] at hk
        exact absurd hgt (Nat.not_lt.mpr hk)
      have hj1 : j + 1 < 7 := by omega
      have hne : (⟨j + 1, hj1⟩ : Fin 7) ≠ i := by
        intro e
        have := congrArg Fin.val e
        simp at this
        omega
      obtain ⟨kv', b, hs, hb⟩ := ih (kv.set ⟨j + 1, hj1⟩ (kv.get ⟨j, hj7⟩)) (by omega)
        ⟨i, by omega, by rw [Mathlib.Vector.get_set_of_ne hne]; exact hk⟩
      refine ⟨kv', b, ?_, by omega⟩
      have hw : writeAt kv ((j : Int) + 1) (kv.get ⟨j, hj7⟩)
          = .ok (kv.set ⟨j + 1, hj1⟩ (kv.get ⟨j, hj7⟩)) := by
        have := writeAt_nat kv (j + 1) hj1 (kv.get ⟨j, hj7⟩)
        simpa using this
      simp only [shiftLoop, readAt_nat kv j hj7, bind, Except.bind, if_pos hgt, hw]
      exact hs
    · refine ⟨kv, j, ?_, by omega⟩
      simp only [shiftLoop, readAt_nat kv j hj7, bind, Except.bind, if_neg hgt]

/-- `insertIntoUnderfulLeafNode` on a leaf with room in which some occupied
slot holds a key not smaller than `k`: the call returns a slot index below the
old count, that slot holds `(k, v)` afterwards, the count is one higher and
the sibling link is kept. -/
theorem insertIntoUnderfulLeafNode_of_le (ln : LeafNode) (k : Key) (v : Value)
    (hn : ln.num_entries < 7)
    (hex : ∃ i : Fin 7, i.val < ln.num_entries ∧ k ≤ (ln.kv.get i).1) :
    ∃ (ln' : LeafNode) (b : Nat),
      insertIntoUnderfulLeafNode ln k v = .ok (ln', (b : Int)) ∧
      b < ln.num_entries ∧ ln'.num_entries = ln.num_entries + 1 ∧
      ln'.sibling = ln.sibling ∧ readAt ln'.kv (b : Int) = .ok (k, v) := by
  obtain ⟨i, hi, hk⟩ := hex
  have h1 : 1 ≤ ln.num_entries := by omega
  have hback : toInt32 (u64sub ln.num_entries 1) = ((ln.num_entries - 1 : Nat) : Int) :=
    toInt32_u64sub_one _ h1 (by norm_num; omega)
  obtain ⟨kv', b, hs, hb⟩ := shiftLoop_stops k (ln.num_entries - 1 + 1) ln.kv (by omega)
    ⟨i, by omega, hk⟩
  have hb7 : b < 7 := by omega
  refine ⟨{ ln with kv := kv'.set ⟨b, hb7⟩ (k, v),
                    num_entries := (ln.num_entries + 1) % 2 ^ 64 }, b, ?_, by omega, ?_, rfl, ?_⟩
  · unfold insertIntoUnderfulLeafNode
    simp only [hback, Int.toNat_ofNat]
    rw [if_neg (by omega)]
    simp only [hs, bind, Except.bind, writeAt_nat kv' b hb7]
  · show (ln.num_entries + 1) % 2 ^ 64 = ln.num_entries + 1
    exact Nat.mod_eq_of_lt (by norm_num; omega)
  · rw [readAt_nat _ b hb7]
    simp [Mathlib.Vector.get_set_same]

/-! ## Reading a leaf back after writing it -/

theorem storeLeaf_of_loadLeaf (t : CSBtree) (p : Ptr) (ln ln' : LeafNode)
    (h : loadLeaf t p = .ok ln) :
    ∃ t', storeLeaf t p ln' = .ok t' ∧ loadLeaf t' p = .ok ln' ∧
      t'.height = t.height ∧ t'.root_ = t.root_ := by
  cases p with
  | null => simp [loadLeaf] at h
  | heapLeaf => exact ⟨{ t with heapLeaf := ln' }, rfl, rfl, rfl, rfl⟩
  | buf => simp [loadLeaf] at h
  | group g => simp [loadLeaf] at h
  | node g offset =>
    simp only [loadLeaf, loadGroup, bind, Except.bind] at h
    cases hg : t.groups[g]? with
    | none => simp [hg] at h
    | some ng =>
      simp only [hg] at h
      cases ha : ng.array with
      | internal_nodes a => simp [ha] at h
      | leaf_nodes a =>
        simp only [ha] at h
        by_cases ho : offset < 14
        · let ng' : NodeGroup := { ng with array := .leaf_nodes (a.set ⟨offset, ho⟩ (some ln')) }
          refine ⟨{ t with groups := t.groups.set g ng' }, ?_, ?_, rfl, rfl⟩
          · simp only [storeLeaf, loadGroup, bind, Except.bind, hg, ha,
              writeAt_nat a offset ho]
          · have hlt : g < t.groups.length := by
              rcases List.getElem?_eq_some.mp hg with ⟨hlt, _⟩
              exact hlt
            simp only [loadLeaf, loadGroup, bind, Except.bind,
              List.getElem?_set_self hlt, readAt_nat _ offset ho,
              Mathlib.Vector.get_set_same]
        · have hr : readAt a (offset : Int) = .error (.outOfBounds offset) := by
            unfold readAt
            rw [dif_neg]
            simp
            omega
          rw [hr] at h
          simp at h

/-! ## The root split never completes -/

theorem u64sub_seven_four : u64sub 7 (7 / 2 + 1) = 3 := by decide

/-- The second copy loop of the split reads `ln->kv[7]` whenever the root leaf
holds 7 entries, whatever the keys are. -/
theorem splitRightCopy_out_of_bounds (ln lc rc : LeafNode) (h : ln.num_entries = 7) :
    splitRightCopy ln lc rc = .error (.outOfBounds 7) := by
  unfold splitRightCopy
  simp only [h, u64sub_seven_four]
  have h5 : readAt ln.kv ((7 / 2 + 1 + 1 + 0 : Nat) : Int) = .ok (ln.kv.get ⟨5, by decide⟩) :=
    readAt_nat ln.kv 5 (by decide)
  have h6 : readAt ln.kv ((7 / 2 + 1 + 1 + (0 + 1) : Nat) : Int) = .ok (ln.kv.get ⟨6, by decide⟩) :=
    readAt_nat ln.kv 6 (by decide)
  have h7 : readAt ln.kv ((7 / 2 + 1 + 1 + (0 + 1 + 1) : Nat) : Int) = .error (.outOfBounds 7) := by
    unfold readAt
    rw [dif_neg (by decide)]
    rfl
  have w0 : ∀ (a : CArray value_type 7) x, writeAt a ((0 : Nat) : Int) x = .ok (a.set ⟨0, by decide⟩ x) :=
    fun a x => writeAt_nat a 0 (by decide) x
  have w1 : ∀ (a : CArray value_type 7) x, writeAt a ((0 + 1 : Nat) : Int) x = .ok (a.set ⟨1, by decide⟩ x) :=
    fun a x => writeAt_nat a 1 (by decide) x
  simp only [copyLoop, h5, h6, h7, w0, w1, bind, Except.bind]

/-- The split path of `insert` ends in a fault for every root leaf: the
assertion when the count is not 7, the read of `ln->kv[7]` when it is. -/
theorem splitRootLeaf_faults (t : CSBtree) (ln : LeafNode) (k : Key) (v : Value) :
    ∃ e, splitRootLeaf t ln k v = .error e := by
  unfold splitRootLeaf
  by_cases h : ln.num_entries = 7
  · rw [if_neg (not_not.mpr h)]
    cases hl : splitLeftCopy t.groups.length ln
        { LeafNode.init with sibling := .node t.groups.length 1 } with
    | error e => exact ⟨e, rfl⟩
    | ok p =>
      obtain ⟨new_root, lc1⟩ := p
      refine ⟨.outOfBounds 7, ?_⟩
      show (splitRightCopy ln lc1 LeafNode.init >>= _) = _
      rw [splitRightCopy_out_of_bounds ln lc1 LeafNode.init h]
      rfl
  · exact ⟨.assertFailed, by rw [if_pos h]⟩

/-- A run of `insert` that returns has taken the branch with room in the root
leaf: it reports `inserted = true` and leaves `root_` and `height` as they
were. -/
theorem insert_ok_frame (t : CSBtree) (k : Key) (v : Value) (r : InsertResult)
    (h : insert t k v = .ok r) :
    r.inserted = true ∧ r.tree.root_ = t.root_ ∧ r.tree.height = t.height ∧ t.height = 0 := by
  unfold insert at h
  by_cases hh : t.height = 0
  · rw [if_pos hh] at h
    cases hl : loadLeaf t t.root_ with
    | error e =>
      rw [hl] at h
      cases h
    | ok ln =>
      rw [hl] at h
      change (if ln.num_entries < 7 then _ else _) = _ at h
      by_cases hn : ln.num_entries < 7
      · rw [if_pos hn] at h
        cases hi : insertIntoUnderfulLeafNode ln k v with
        | error e =>
          rw [hi] at h
          cases h
        | ok p =>
          obtain ⟨ln', back⟩ := p
          rw [hi] at h
          obtain ⟨t', hs, _, hheight, hroot⟩ := storeLeaf_of_loadLeaf t t.root_ ln ln' hl
          change (storeLeaf t t.root_ ln' >>= _) = _ at h
          rw [hs] at h
          injection h with h
          subst h
          exact ⟨rfl, hroot, hheight, hh⟩
      · rw [if_neg hn] at h
        obtain ⟨e, he⟩ := splitRootLeaf_faults t ln k v
        rw [he] at h
        cases h
  · rw [if_neg hh] at h
    cases h

/-! ## The shifting loop when every key is below `k` -/

/-- When every slot below `j` holds a key smaller than `k`, the loop entered
at `back = j - 1` runs down to `back = -1`. -/
theorem shiftLoop_runs_out (k : Key) :
    ∀ (j : Nat) (kv : CArray value_type 7), j ≤ 6 →
      (∀ i : Fin 7, i.val < j → (kv.get i).1 < k) →
      ∃ kv' : CArray value_type 7, shiftLoop k j kv = .ok (kv', -1) := by
  intro j
  induction j with
  | zero =>
    intro kv _ _
    exact ⟨kv, rfl⟩
  | succ j ih =>
    intro kv hj hlt
    have hj7 : j < 7 := by omega
    have hj1 : j + 1 < 7 := by omega
    have hgt : k > (kv.get ⟨j, hj7⟩).1 := hlt ⟨j, hj7⟩ (by simp)
    have hw : writeAt kv ((j : Int) + 1) (kv.get ⟨j, hj7⟩)
        = .ok (kv.set ⟨j + 1, hj1⟩ (kv.get ⟨j, hj7⟩)) := by
      have := writeAt_nat kv (j + 1) hj1 (kv.get ⟨j, hj7⟩)
      simpa using this
    obtain ⟨kv', hs⟩ := ih (kv.set ⟨j + 1, hj1⟩ (kv.get ⟨j, hj7⟩)) (by omega) (by
      intro i hi
      have hne : (⟨j + 1, hj1⟩ : Fin 7) ≠ i := by
        intro e
        have := congrArg Fin.val e
        simp at this
        omega
      rw [Mathlib.Vector.get_set_of_ne hne]
      exact hlt i (by omega))
    refine ⟨kv', ?_⟩
    simp only [shiftLoop, readAt_nat kv j hj7, bind, Except.bind, if_pos hgt, hw]
    exact hs

/-- `insertIntoUnderfulLeafNode` on a leaf with room whose occupied slots all
hold keys smaller than `k` (in particular on an empty leaf) ends with the
write `ln->kv[-1] = {k, v}`. -/
theorem insertIntoUnderfulLeafNode_of_gt (ln : LeafNode) (k : Key) (v : Value)
    (hn : ln.num_entries < 7)
    (hgt : ∀ i : Fin 7, i.val < ln.num_entries → (ln.kv.get i).1 < k) :
    insertIntoUnderfulLeafNode ln k v = .error (.outOfBounds (-1)) := by
  unfold insertIntoUnderfulLeafNode
  by_cases h0 : ln.num_entries = 0
  · rw [h0]
    rfl
  · have hback : toInt32 (u64sub ln.num_entries 1) = ((ln.num_entries - 1 : Nat) : Int) :=
      toInt32_u64sub_one _ (by omega) (by norm_num; omega)
    obtain ⟨kv', hs⟩ := shiftLoop_runs_out k (ln.num_entries - 1 + 1) ln.kv (by omega)
      (fun i hi => hgt i (by omega))
    simp only [hback, Int.toNat_ofNat]
    rw [if_neg (by omega)]
    simp only [hs, bind, Except.bind]
    rfl

/-! ## The separator scan when the key exceeds every separator -/

theorem searchLoop_none (inode : InternalNode) (k : Key) :
    ∀ (remaining i : Nat), i + remaining ≤ 14 →
      (∀ j : Fin 14, i ≤ j.val → j.val < i + remaining → inode.children.get j < k) →
      searchLoop inode k remaining i = .ok none := by
  intro remaining
  induction remaining with
  | zero =>
    intro i _ _
    rfl
  | succ r ih =>
    intro i hb hlt
    have hi : i < 14 := by omega
    have hk : ¬ k ≤ inode.children.get ⟨i, hi⟩ :=
      Nat.not_le.mpr (hlt ⟨i, hi⟩ (le_refl _) (by simp))
    simp only [searchLoop, readAt_nat inode.children i hi, bind, Except.bind, if_neg hk]
    exact ih (i + 1) (by omega) (fun j h1 h2 => hlt j (by omega) (by omega))

/-- `searchInternalNode` returns `{nullptr, -1}` for every node with at most
14 children and every key above all the separators it scans. -/
theorem searchInternalNode_of_gt (inode : InternalNode) (k : Key)
    (hc : inode.num_children ≤ 14)
    (hgt : ∀ j : Fin 14, j.val < inode.num_children → inode.children.get j < k) :
    searchInternalNode inode k = .ok { ng := .null, offset := -1 } := by
  unfold searchInternalNode
  rw [searchLoop_none inode k inode.num_children 0 (by omega)
    (fun j _ h2 => hgt j (by omega))]
  rfl

/-- `find` on a tree of height at least 1 returns the end sentinel for every
key above all the separators of the root node. -/
theorem find_of_gt (t : CSBtree) (inode : InternalNode) (k : Key)
    (hh : t.height ≠ 0) (hl : loadInternal t t.root_ = .ok inode)
    (hc : inode.num_children ≤ 14)
    (hgt : ∀ j : Fin 14, j.val < inode.num_children → inode.children.get j < k) :
    find t k = .ok end_ := by
  unfold find
  rw [if_neg hh, hl]
  show (searchInternalNode inode k >>= _) = _
  rw [searchInternalNode_of_gt inode k hc hgt]
  rfl

/-! ## The fuel handed to `find_helper` by `find` is enough -/

theorem except_error_bind {α β : Type} (e : Fault) (f : α → Except Fault β) :
    ((Except.error e : Except Fault α) >>= f) = Except.error e := rfl

theorem except_ok_bind {α β : Type} (x : α) (f : α → Except Fault β) :
    ((Except.ok x : Except Fault α) >>= f) = f x := rfl

theorem readAt_ne_outOfFuel {α : Type} {n : Nat} (a : CArray α n) (i : Int) :
    readAt a i ≠ .error .outOfFuel := by
  unfold readAt
  split <;> simp

theorem writeAt_ne_outOfFuel {α : Type} {n : Nat} (a : CArray α n) (i : Int) (x : α) :
    writeAt a i x ≠ .error .outOfFuel := by
  unfold writeAt
  split <;> simp

theorem loadGroup_ne_outOfFuel (t : CSBtree) (p : Ptr) :
    loadGroup t p ≠ .error .outOfFuel := by
  unfold loadGroup
  split
  · simp
  · split <;> simp
  · simp

theorem slotPtr_ne_outOfFuel (p : Ptr) (offset : Int) :
    slotPtr p offset ≠ .error .outOfFuel := by
  unfold slotPtr
  split
  · simp
  · split <;> simp
  · simp

theorem loadLeaf_ne_outOfFuel (t : CSBtree) (p : Ptr) :
    loadLeaf t p ≠ .error .outOfFuel := by
  intro h
  unfold loadLeaf at h
  split at h
  · simp at h
  · simp at h
  · rename_i g offset
    cases hg : loadGroup t (.group g) with
    | error e =>
      rw [hg, except_error_bind] at h
      exact loadGroup_ne_outOfFuel t (.group g) (by rw [hg, Except.error.inj h])
    | ok ng =>
      rw [hg, except_ok_bind] at h
      split at h
      · rename_i a _
        cases hr : readAt a (offset : Int) with
        | error e =>
          rw [hr, except_error_bind] at h
          exact readAt_ne_outOfFuel a offset (by rw [hr, Except.error.inj h])
        | ok o =>
          rw [hr, except_ok_bind] at h
          cases o <;> simp at h
      · simp at h
  · simp at h

theorem loadInternal_ne_outOfFuel (t : CSBtree) (p : Ptr) :
    loadInternal t p ≠ .error .outOfFuel := by
  intro h
  unfold loadInternal at h
  split at h
  · simp at h
  · split at h <;> simp at h
  · rename_i g offset
    cases hg : loadGroup t (.group g) with
    | error e =>
      rw [hg, except_error_bind] at h
      exact loadGroup_ne_outOfFuel t (.group g) (by rw [hg, Except.error.inj h])
    | ok ng =>
      rw [hg, except_ok_bind] at h
      split at h
      · rename_i a _
        cases hr : readAt a (offset : Int) with
        | error e =>
          rw [hr, except_error_bind] at h
          exact readAt_ne_outOfFuel a offset (by rw [hr, Except.error.inj h])
        | ok o =>
          rw [hr, except_ok_bind] at h
          cases o <;> simp at h
      · simp at h
  · simp at h

theorem bind_ne_outOfFuel {α β : Type} {x : Except Fault α} {f : α → Except Fault β}
    (hx : x ≠ .error .outOfFuel) (hf : ∀ a, f a ≠ .error .outOfFuel) :
    (x >>= f) ≠ .error .outOfFuel := by
  cases x with
  | error e =>
    rw [except_error_bind]
    intro h
    exact hx (by rw [Except.error.inj h])
  | ok a =>
    rw [except_ok_bind]
    exact hf a

theorem scanLeaf_ne_outOfFuel (ln : LeafNode) (k : Key) :
    ∀ (remaining i : Nat), scanLeaf ln k remaining i ≠ .error .outOfFuel := by
  intro remaining
  induction remaining with
  | zero =>
    intro i
    simp [scanLeaf]
  | succ r ih =>
    intro i
    rw [scanLeaf]
    refine bind_ne_outOfFuel (readAt_ne_outOfFuel _ _) (fun e => ?_)
    split
    · simp
    · exact ih (i + 1)

theorem searchLoop_ne_outOfFuel (inode : InternalNode) (k : Key) :
    ∀ (remaining i : Nat), searchLoop inode k remaining i ≠ .error .outOfFuel := by
  intro remaining
  induction remaining with
  | zero =>
    intro i
    simp [searchLoop]
  | succ r ih =>
    intro i
    rw [searchLoop]
    refine bind_ne_outOfFuel (readAt_ne_outOfFuel _ _) (fun e => ?_)
    split
    · simp
    · exact ih (i + 1)

/-- A call of `find_helper` at a depth not above the height, with more fuel
than levels left, never stops for lack of fuel. -/
theorem find_helper_fuel (t : CSBtree) (k : Key) :
    ∀ (fuel : Nat) (node_group : Ptr) (offset : Int) (depth : Nat)
      (out_path : Option static_vector),
      depth ≤ t.height → t.height - depth < fuel →
      find_helper t k fuel node_group offset depth out_path ≠ .error .outOfFuel := by
  intro fuel
  induction fuel with
  | zero =>
    intro _ _ _ _ _ h
    omega
  | succ fuel ih =>
    intro node_group offset depth out_path hd hf
    unfold find_helper
    refine bind_ne_outOfFuel ?_ (fun out_path' => ?_)
    · unfold recordPath
      split
      · exact bind_ne_outOfFuel (writeAt_ne_outOfFuel _ _ _) (fun a => by simp)
      · simp
    refine bind_ne_outOfFuel (loadGroup_ne_outOfFuel _ _) (fun ng => ?_)
    split
    · split
      · simp
      · refine bind_ne_outOfFuel (slotPtr_ne_outOfFuel _ _) (fun p => ?_)
        split
        · simp
        · refine bind_ne_outOfFuel (loadLeaf_ne_outOfFuel _ _) (fun ln => ?_)
          refine bind_ne_outOfFuel (scanLeaf_ne_outOfFuel _ _ _ _) (fun m => ?_)
          split <;> simp
    · rename_i hne
      split
      · simp
      · refine bind_ne_outOfFuel (slotPtr_ne_outOfFuel _ _) (fun p => ?_)
        refine bind_ne_outOfFuel (loadInternal_ne_outOfFuel _ _) (fun inode => ?_)
        refine bind_ne_outOfFuel (searchLoop_ne_outOfFuel _ _ _ _) (fun m => ?_)
        split
        · refine bind_ne_outOfFuel (ih _ _ _ _ (by omega) (by omega)) (fun r => by simp)
        · simp

/-- `find` never stops for lack of fuel: the recursion of `find_helper`
bottoms out within `height` calls. -/
theorem find_ne_outOfFuel (t : CSBtree) (k : Key) : find t k ≠ .error .outOfFuel := by
  unfold find
  split
  · refine bind_ne_outOfFuel (loadLeaf_ne_outOfFuel _ _) (fun ln => ?_)
    refine bind_ne_outOfFuel (scanLeaf_ne_outOfFuel _ _ _ _) (fun m => ?_)
    split <;> simp
  · rename_i hh
    refine bind_ne_outOfFuel (loadInternal_ne_outOfFuel _ _) (fun inode => ?_)
    refine bind_ne_outOfFuel ?_ (fun x => ?_)
    · unfold searchInternalNode
      refine bind_ne_outOfFuel (searchLoop_ne_outOfFuel _ _ _ _) (fun m => ?_)
      split <;> simp
    · split
      · refine bind_ne_outOfFuel (find_helper_fuel t k _ _ _ _ _ (by omega) (by omega))
          (fun r => by simp)
      · simp

/-! ## Runs of `insert` from the constructor's tree -/

/-- The first `insert` on the constructor's tree writes `ln->kv[-1]`. -/
theorem insert_create_out_of_bounds (k : Key) (v : Value) :
    insert create k v = .error (.outOfBounds (-1)) := rfl

/-- The only insert sequence that runs to completion from the constructor's
tree is the empty one. -/
theorem insertAll_create_ok (ops : List (Key × Value)) (t : CSBtree)
    (h : insertAll create ops = .ok t) : ops = [] ∧ t = create := by
  cases ops with
  | nil =>
    injection h with h
    exact ⟨rfl, h.symm⟩
  | cons p rest =>
    obtain ⟨k, v⟩ := p
    have : insertAll create ((k, v) :: rest) = .error (.outOfBounds (-1)) := rfl
    rw [this] at h
    cases h

/-! ## Evaluation of the code at concrete trees -/

/-- C1: on the tree made by the constructor every non-empty sequence of
inserts stops at its first insert, which writes `ln->kv[-1]`; no leaf
contents equal to the inserted pairs are ever produced. -/
theorem C1_first_insert_out_of_bounds :
    ∀ (k : Key) (v : Value) (rest : List (Key × Value)),
      insertAll create ((k, v) :: rest) = .error (.outOfBounds (-1)) := by
  intro k v rest
  rfl

/-- C2: `insert(k, v)` on the tree made by the constructor followed by
`find(k)` does not yield an iterator to `(k, v)`: the insert itself writes
`ln->kv[-1]`. -/
theorem C2_insert_then_find_out_of_bounds :
    ∀ (k : Key) (v : Value),
      (insert create k v >>= fun r => find r.tree k) = .error (.outOfBounds (-1)) := by
  intro k v
  rfl

/-- C5: inserting key 5 into the root leaf `[(10,100)]` overwrites slot 0 and
raises the count to 2, leaving `[(5,50), (0,0)]`; inserting key 20 into the
same leaf, or any key into the empty root leaf, writes `ln->kv[-1]`. -/
theorem C5_insert_loses_entry :
    (∃ r, insert (leafTree [(10, 100)]) 5 50 = .ok r ∧
        r.tree.heapLeaf.num_entries = 2 ∧
        r.tree.heapLeaf.entries = [(5, 50), (0, 0)]) ∧
    insert (leafTree [(10, 100)]) 20 200 = .error (.outOfBounds (-1)) ∧
    insert (leafTree []) 5 50 = .error (.outOfBounds (-1)) := by
  refine ⟨⟨_, rfl, ?_, ?_⟩, ?_, ?_⟩ <;> decide

/-- C6: with the root leaf holding keys 1..7, `insert` of any pair stops in
the second copy loop of the split, which reads `ln->kv[7]`; and inserting
keys 1..8 into an empty tree stops at the first insert. -/
theorem C6_root_split_out_of_bounds :
    (∀ (k : Key) (v : Value), insert (leafTree full7) k v = .error (.outOfBounds 7)) ∧
    insertAll create [(1, 10), (2, 20), (3, 30), (4, 40), (5, 50), (6, 60), (7, 70), (8, 80)]
      = .error (.outOfBounds (-1)) := by
  constructor
  · intro k v
    rfl
  · rfl

/-- C7: splitting the root leaf with keys 1..7, the code stores key 5
(`ln->kv[4].first`) as the separator while the left leaf is given
`num_entries = 4`, whose entries after the first copy loop are keys 1..4;
the second copy loop then reads `ln->kv[7]`. -/
theorem C7_separator_is_fifth_key :
    ∃ new_root lc,
      splitLeftCopy 0 (leafTree full7).heapLeaf { LeafNode.init with sibling := .node 0 1 }
        = .ok (new_root, lc) ∧
      readAt new_root.children 0 = .ok 5 ∧
      lc.entries = [(1, 10), (2, 20), (3, 30), (4, 40)] ∧
      splitRightCopy (leafTree full7).heapLeaf lc LeafNode.init = .error (.outOfBounds 7) := by
  refine ⟨_, _, rfl, ?_, ?_, ?_⟩ <;> decide

/-- C8: the last steps of the root split (construction of the new root in
`buf`, insertion into a new leaf, `++height`) leave `root_` on the leaf made
by the constructor: height is 1, `buf` holds the new internal node, and
reading `root_` as an internal node is a cast to the wrong node type. -/
theorem C8_split_keeps_root_on_leaf :
    ∃ r,
      splitInstall (leafTree full7) 0 sampleRoot
          (leafOf [(1, 10), (2, 20), (3, 30), (4, 40)] (.node 0 1))
          { LeafNode.init with num_entries := 3 } 0 0 = .ok r ∧
      r.inserted = true ∧
      r.tree.height = 1 ∧
      r.tree.buf = some sampleRoot ∧
      r.tree.root_ = .heapLeaf ∧
      loadLeaf r.tree r.tree.root_ = .ok (leafTree full7).heapLeaf ∧
      loadInternal r.tree r.tree.root_ = .error .badCast := by
  refine ⟨_, rfl, ?_, ?_, ?_, ?_, ?_, ?_⟩ <;> decide

/-- C9: on the two-child root with separator 4, `searchInternalNode` on key 7
returns `{nullptr, -1}` and `find(7)` returns the end sentinel, although the
last child (slot 1 of the group) holds key 7 in its slot 2. -/
theorem C9_search_skips_last_child :
    searchInternalNode sampleRoot 7 = .ok { ng := .null, offset := -1 } ∧
    find sampleTree 7 = .ok end_ ∧
    find_helper sampleTree 7 1 (.group 0) 1 1 none
      = .ok ({ ln_ := .node 0 1, offset := 2 }, none) := by
  refine ⟨?_, ?_, ?_⟩ <;> decide

/-- C10: the tree made by the constructor has height 0, its root designates a
leaf with zero entries and a null sibling, and `find(k)` returns the end
sentinel `(nullptr, -1)` for every key. -/
theorem C10_create_is_empty :
    create.height = 0 ∧
    (∃ ln, loadLeaf create create.root_ = .ok ln ∧ ln.num_entries = 0 ∧ ln.sibling = .null) ∧
    ∀ k : Key, find create k = .ok { ln_ := .null, offset := -1 } := by
  refine ⟨rfl, ⟨_, rfl, rfl, rfl⟩, ?_⟩
  intro k
  rfl

/-! ## Inserting a key that is already present -/

/-- C4 (counterexample): the root leaf holds `(10,100)`; `insert(10, 7)`
reports `inserted = true`, overwrites the stored value and raises the entry
count to 2: the tree is not left unchanged. -/
theorem C4_duplicate_insert_counterexample :
    ∃ r, insert (leafTree [(10, 100)]) 10 7 = .ok r ∧
      r.inserted = true ∧
      r.tree.heapLeaf.num_entries = 2 ∧
      r.tree.heapLeaf.entries = [(10, 7), (0, 0)] ∧
      r.tree ≠ leafTree [(10, 100)] := by
  refine ⟨_, rfl, ?_, ?_, ?_, ?_⟩ <;> decide

/-- C4 (amended): `insert` makes no duplicate check.  For every height-0 tree
whose root leaf has `n < 7` entries and already holds key `k` in one of the
slots `0 .. n-1`, `insert(k, v2)` returns `inserted = true` with an iterator
into the root leaf whose slot now holds `(k, v2)`; the root leaf's entry count
becomes `n + 1`, and height and root reference are unchanged. -/
theorem C4_duplicate_insert_reports_inserted (t : CSBtree) (ln : LeafNode) (k : Key)
    (v2 : Value) (hh : t.height = 0) (hroot : loadLeaf t t.root_ = .ok ln)
    (hn : ln.num_entries < 7)
    (hdup : ∃ i : Fin 7, i.val < ln.num_entries ∧ (ln.kv.get i).1 = k) :
    ∃ (r : InsertResult) (ln' : LeafNode),
      insert t k v2 = .ok r ∧ r.inserted = true ∧
      r.it.ln_ = t.root_ ∧ iterator.deref r.tree r.it = .ok (k, v2) ∧
      loadLeaf r.tree r.tree.root_ = .ok ln' ∧ ln'.num_entries = ln.num_entries + 1 ∧
      r.tree.height = 0 ∧ r.tree.root_ = t.root_ := by
  obtain ⟨i, hi, hk⟩ := hdup
  obtain ⟨ln', b, hins, _, hcount, _, hread⟩ :=
    insertIntoUnderfulLeafNode_of_le ln k v2 hn ⟨i, hi, le_of_eq hk.symm⟩
  obtain ⟨t', hstore, hload, hheight, hrootp⟩ := storeLeaf_of_loadLeaf t t.root_ ln ln' hroot
  refine ⟨{ it := { ln_ := t.root_, offset := (b : Int) }, inserted := true, tree := t' },
    ln', ?_, rfl, rfl, ?_, ?_, hcount, ?_, hrootp⟩
  · unfold insert
    rw [if_pos hh, hroot]
    show (if ln.num_entries < 7 then _ else _) = _
    rw [if_pos hn, hins]
    show (storeLeaf t t.root_ ln' >>= _) = _
    rw [hstore]
    rfl
  · simp only [iterator.deref, hload, bind, Except.bind, hread]
  · show loadLeaf t' t'.root_ = .ok ln'
    rw [hrootp]
    exact hload
  · show t'.height = 0
    rw [hheight]
    exact hh

/-- C4 (witness): the amended statement at the root leaf `[(10,100)]` and the
duplicate insert `(10, 7)`. -/
theorem C4_duplicate_insert_reports_inserted_witness :
    (leafTree [(10, 100)]).height = 0 ∧
    loadLeaf (leafTree [(10, 100)]) (leafTree [(10, 100)]).root_
      = .ok (leafTree [(10, 100)]).heapLeaf ∧
    (leafTree [(10, 100)]).heapLeaf.num_entries < 7 ∧
    (∃ i : Fin 7, i.val < (leafTree [(10, 100)]).heapLeaf.num_entries ∧
      ((leafTree [(10, 100)]).heapLeaf.kv.get i).1 = 10) ∧
    ∃ (r : InsertResult) (ln' : LeafNode),
      insert (leafTree [(10, 100)]) 10 7 = .ok r ∧ r.inserted = true ∧
      r.it.ln_ = (leafTree [(10, 100)]).root_ ∧ iterator.deref r.tree r.it = .ok (10, 7) ∧
      loadLeaf r.tree r.tree.root_ = .ok ln' ∧
      ln'.num_entries = (leafTree [(10, 100)]).heapLeaf.num_entries + 1 ∧
      r.tree.height = 0 ∧ r.tree.root_ = (leafTree [(10, 100)]).root_ :=
  ⟨rfl, rfl, by decide, ⟨0, by decide, rfl⟩,
    C4_duplicate_insert_reports_inserted (leafTree [(10, 100)])
      (leafTree [(10, 100)]).heapLeaf 10 7 rfl rfl (by decide) ⟨0, by decide, rfl⟩⟩

/-! ## The first half of the root split -/

/-- A copy loop whose source and target indices stay below 7 runs to its end. -/
theorem copyLoop_ok (src : CArray value_type 7) (base : Nat) :
    ∀ (count i : Nat) (dst : CArray value_type 7), base + i + count ≤ 7 →
      ∃ dst' : CArray value_type 7, copyLoop src base count i dst = .ok dst' := by
  intro count
  induction count with
  | zero =>
    intro i dst _
    exact ⟨dst, rfl⟩
  | succ c ih =>
    intro i dst hb
    have h1 : base + i < 7 := by omega
    have h2 : i < 7 := by omega
    obtain ⟨dst', hd⟩ := ih (i + 1) (dst.set ⟨i, h2⟩ (src.get ⟨base + i, h1⟩)) (by omega)
    refine ⟨dst', ?_⟩
    unfold copyLoop
    rw [readAt_nat src (base + i) h1, except_ok_bind, writeAt_nat dst i h2, except_ok_bind]
    exact hd

/-- On a root leaf with 7 entries the first half of the split (lines 194-204)
runs: the new root has two children, references the new group and carries
`ln->kv[4].first` as separator; the left leaf has `num_entries = 4` and keeps
the sibling link set at line 189. -/
theorem splitLeftCopy_ok (g : Nat) (ln lc0 : LeafNode) (h : ln.num_entries = 7) :
    ∃ (new_root : InternalNode) (lc : LeafNode),
      splitLeftCopy g ln lc0 = .ok (new_root, lc) ∧
      new_root.num_children = 2 ∧ new_root.child_node_group = .group g ∧
      readAt new_root.children 0 = .ok (ln.kv.get ⟨4, by decide⟩).1 ∧
      lc.num_entries = 4 ∧ lc.sibling = lc0.sibling := by
  have h4 : readAt ln.kv ((7 / 2 + 1 : Nat) : Int) = .ok (ln.kv.get ⟨4, by decide⟩) :=
    readAt_nat ln.kv 4 (by decide)
  have hw : ∀ x : Nat, writeAt InternalNode.init.children 0 x
      = .ok (InternalNode.init.children.set ⟨0, by decide⟩ x) :=
    fun x => writeAt_nat InternalNode.init.children 0 (by decide) x
  obtain ⟨kv, hkv⟩ := copyLoop_ok ln.kv 0 (7 / 2 + 1 + 1) 0 lc0.kv (by decide)
  refine ⟨{ children := InternalNode.init.children.set ⟨0, by decide⟩ (ln.kv.get ⟨4, by decide⟩).1,
            child_node_group := .group g, num_children := 2 },
          { kv := kv, num_entries := 4, sibling := lc0.sibling }, ?_, rfl, rfl, ?_, rfl, rfl⟩
  · unfold splitLeftCopy
    simp only [h]
    rw [h4, except_ok_bind, hw, except_ok_bind, hkv, except_ok_bind]
  · have := readAt_nat (InternalNode.init.children.set ⟨0, by decide⟩
      (ln.kv.get ⟨4, by decide⟩).1) 0 (by decide)
    rw [Mathlib.Vector.get_set_same] at this
    exact this

/-! ## The two linear scans -/

/-- The separator scan started at counter `s` with `r` iterations left returns
the first index from `s` on whose separator is not below `k`. -/
theorem searchLoop_found (inode : InternalNode) (k : Key) (i : Fin 14) :
    ∀ (r s : Nat), s ≤ i.val → i.val < s + r → k ≤ inode.children.get i →
      (∀ j : Fin 14, s ≤ j.val → j.val < i.val → ¬ k ≤ inode.children.get j) →
      searchLoop inode k r s = .ok (some i.val) := by
  intro r
  induction r with
  | zero =>
    intro s h1 h2 _ _
    omega
  | succ r ih =>
    intro s h1 h2 hk hmin
    have hs : s < 14 := by omega
    unfold searchLoop
    rw [readAt_nat inode.children s hs, except_ok_bind]
    by_cases hsi : s = i.val
    · have e : (⟨s, hs⟩ : Fin 14) = i := Fin.ext hsi
      rw [e, if_pos hk, hsi]
    · rw [if_neg (hmin ⟨s, hs⟩ (le_refl _) (by simp; omega))]
      exact ih (s + 1) (by omega) (by omega) hk
        (fun j hj1 hj2 => hmin j (by omega) hj2)

/-- The leaf scan started at counter `s` with `r` iterations left returns the
first index from `s` on whose key equals `k`. -/
theorem scanLeaf_found (ln : LeafNode) (k : Key) (i : Fin 7) :
    ∀ (r s : Nat), s ≤ i.val → i.val < s + r → (ln.kv.get i).1 = k →
      (∀ j : Fin 7, s ≤ j.val → j.val < i.val → (ln.kv.get j).1 ≠ k) →
      scanLeaf ln k r s = .ok (some i.val) := by
  intro r
  induction r with
  | zero =>
    intro s h1 h2 _ _
    omega
  | succ r ih =>
    intro s h1 h2 hk hmin
    have hs : s < 7 := by omega
    unfold scanLeaf
    rw [readAt_nat ln.kv s hs, except_ok_bind]
    by_cases hsi : s = i.val
    · have e : (⟨s, hs⟩ : Fin 7) = i := Fin.ext hsi
      rw [e, if_pos hk.symm, hsi]
    · rw [if_neg (fun h => hmin ⟨s, hs⟩ (le_refl _) (by simp; omega) h.symm)]
      exact ih (s + 1) (by omega) (by omega) hk
        (fun j hj1 hj2 => hmin j (by omega) hj2)

/-- The leaf scan over slots that all hold other keys runs out. -/
theorem scanLeaf_none (ln : LeafNode) (k : Key) :
    ∀ (r s : Nat), s + r ≤ 7 →
      (∀ j : Fin 7, s ≤ j.val → j.val < s + r → (ln.kv.get j).1 ≠ k) →
      scanLeaf ln k r s = .ok none := by
  intro r
  induction r with
  | zero =>
    intro s _ _
    rfl
  | succ r ih =>
    intro s hb hne
    have hs : s < 7 := by omega
    unfold scanLeaf
    rw [readAt_nat ln.kv s hs, except_ok_bind,
      if_neg (fun h => hne ⟨s, hs⟩ (le_refl _) (by simp) h.symm)]
    exact ih (s + 1) (by omega) (fun j hj1 hj2 => hne j (by omega) (by omega))

/-- Whatever the leaf scan returns as found is a slot it was asked to visit,
inside the array, holding key `k`. -/
theorem scanLeaf_some (ln : LeafNode) (k : Key) (i : Nat) :
    ∀ (r s : Nat), scanLeaf ln k r s = .ok (some i) →
      s ≤ i ∧ i < s + r ∧ ∃ h : i < 7, (ln.kv.get ⟨i, h⟩).1 = k := by
  intro r
  induction r with
  | zero =>
    intro s h
    simp [scanLeaf] at h
  | succ r ih =>
    intro s h
    unfold scanLeaf at h
    by_cases hs : s < 7
    · rw [readAt_nat ln.kv s hs, except_ok_bind] at h
      by_cases hk : k = (ln.kv.get ⟨s, hs⟩).1
      · rw [if_pos hk] at h
        injection h with h
        injection h with h
        subst h
        exact ⟨le_refl _, by omega, hs, hk.symm⟩
      · rw [if_neg hk] at h
        obtain ⟨h1, h2, h3⟩ := ih (s + 1) h
        exact ⟨by omega, by omega, h3⟩
    · have hr : readAt ln.kv (s : Int) = .error (.outOfBounds s) := by
        unfold readAt
        rw [dif_neg]
        simp
        omega
      rw [hr, except_error_bind] at h
      cases h

/-- Among the indices with a property there is a first one. -/
theorem exists_first {n : Nat} (P : Fin n → Prop) (h : ∃ i, P i) :
    ∃ i, P i ∧ ∀ j : Fin n, j.val < i.val → ¬ P j := by
  classical
  obtain ⟨i0, hi0⟩ := h
  have hex : ∃ m : Nat, ∃ hm : m < n, P ⟨m, hm⟩ := ⟨i0.val, i0.isLt, hi0⟩
  obtain ⟨hm, hP⟩ := Nat.find_spec hex
  refine ⟨⟨Nat.find hex, hm⟩, hP, ?_⟩
  intro j hj hPj
  exact Nat.find_min hex hj ⟨j.isLt, hPj⟩

theorem except_bind_eq_ok {α β : Type} {x : Except Fault α} {f : α → Except Fault β} {y : β}
    (h : (x >>= f) = .ok y) : ∃ a, x = .ok a ∧ f a = .ok y := by
  cases x with
  | error e =>
    rw [except_error_bind] at h
    cases h
  | ok a => exact ⟨a, rfl, h⟩

/-- One step of `find_helper` above the leaf level: when the separator scan
of the node at `(node_group, offset)` returns index `i`, the call continues
in slot `i` of the node's child group, one level deeper and without path
accumulator. -/
theorem find_helper_descends (t : CSBtree) (k : Key) (fuel : Nat) (node_group : Ptr)
    (offset : Int) (depth : Nat) (out_path out_path' : Option static_vector)
    (ng : NodeGroup) (p : Ptr) (inode : InternalNode) (i : Nat)
    (hrec : recordPath out_path node_group offset = .ok out_path')
    (hg : loadGroup t node_group = .ok ng) (hd : depth ≠ t.height)
    (hint : ng.internal = true) (hp : slotPtr node_group offset = .ok p)
    (hin : loadInternal t p = .ok inode)
    (hs : searchLoop inode k inode.num_children 0 = .ok (some i)) :
    find_helper t k (fuel + 1) node_group offset depth out_path
      = (find_helper t k fuel inode.child_node_group (i : Int) (depth + 1) none
          >>= fun r => .ok (r.1, out_path')) := by
  conv_lhs => unfold find_helper
  rw [hrec, except_ok_bind, hg, except_ok_bind, if_neg hd]
  simp only [hint, Bool.not_true, Bool.false_eq_true, if_false]
  rw [hp, except_ok_bind, hin, except_ok_bind, hs, except_ok_bind]

/-! ## Frame of the insert with room, and of the path accumulator -/

/-- Writing a leaf creates no node group and leaves `buf` alone. -/
theorem storeLeaf_frame (t t' : CSBtree) (p : Ptr) (ln : LeafNode)
    (h : storeLeaf t p ln = .ok t') :
    t'.groups.length = t.groups.length ∧ t'.buf = t.buf := by
  cases p with
  | null => cases h
  | heapLeaf =>
    injection h with h
    subst h
    exact ⟨rfl, rfl⟩
  | buf => cases h
  | group g => cases h
  | node g offset =>
    unfold storeLeaf at h
    obtain ⟨ng, _, h⟩ := except_bind_eq_ok h
    split at h
    · obtain ⟨a', _, h⟩ := except_bind_eq_ok h
      injection h with h
      subst h
      exact ⟨List.length_set _ _ _, rfl⟩
    · cases h

/-- For every height-0 tree whose root leaf has `n < 7` entries, one of them
with a key not below `k`, `insert(k, v)` returns `inserted = true` with an
iterator to a slot of the root leaf that holds `(k, v)`; the entry count is
`n + 1`; height, root reference, sibling link and `buf` are unchanged and no
node group is created. -/
theorem insert_room_of_le (t : CSBtree) (ln : LeafNode) (k : Key) (v : Value)
    (hh : t.height = 0) (hroot : loadLeaf t t.root_ = .ok ln) (hn : ln.num_entries < 7)
    (hex : ∃ i : Fin 7, i.val < ln.num_entries ∧ k ≤ (ln.kv.get i).1) :
    ∃ (r : InsertResult) (ln' : LeafNode),
      insert t k v = .ok r ∧ r.inserted = true ∧
      r.it.ln_ = t.root_ ∧ iterator.deref r.tree r.it = .ok (k, v) ∧
      loadLeaf r.tree r.tree.root_ = .ok ln' ∧ ln'.num_entries = ln.num_entries + 1 ∧
      ln'.sibling = ln.sibling ∧
      r.tree.height = 0 ∧ r.tree.root_ = t.root_ ∧
      r.tree.groups.length = t.groups.length ∧ r.tree.buf = t.buf := by
  obtain ⟨ln', b, hins, _, hcount, hsib, hread⟩ :=
    insertIntoUnderfulLeafNode_of_le ln k v hn hex
  obtain ⟨t', hstore, hload, hheight, hrootp⟩ := storeLeaf_of_loadLeaf t t.root_ ln ln' hroot
  obtain ⟨hlen, hbuf⟩ := storeLeaf_frame t t' t.root_ ln' hstore
  refine ⟨{ it := { ln_ := t.root_, offset := (b : Int) }, inserted := true, tree := t' },
    ln', ?_, rfl, rfl, ?_, ?_, hcount, hsib, ?_, hrootp, hlen, hbuf⟩
  · unfold insert
    rw [if_pos hh, hroot, except_ok_bind, if_pos hn, hins, except_ok_bind]
    show (storeLeaf t t.root_ ln' >>= _) = _
    rw [hstore]
    rfl
  · unfold iterator.deref
    show (loadLeaf t' t.root_ >>= _) = _
    rw [hload, except_ok_bind]
    exact hread
  · show loadLeaf t' t'.root_ = .ok ln'
    rw [hrootp]
    exact hload
  · show t'.height = 0
    rw [hheight]
    exact hh

/-- A call of `find_helper` with a path accumulator that returns has appended
exactly one pair, its own `(node_group, offset)`, whatever the height. -/
theorem find_helper_path (t : CSBtree) (k : Key) (fuel : Nat) (node_group : Ptr)
    (offset : Int) (depth : Nat) (p : static_vector) (it : iterator)
    (op : Option static_vector)
    (h : find_helper t k fuel node_group offset depth (some p) = .ok (it, op)) :
    ∃ a, writeAt p.array p.size (some { ng := node_group, offset := offset }) = .ok a ∧
      op = some { size := p.size + 1, array := a } := by
  cases fuel with
  | zero =>
    unfold find_helper at h
    cases h
  | succ fuel =>
    unfold find_helper at h
    obtain ⟨op', hrec, h⟩ := except_bind_eq_ok h
    unfold recordPath at hrec
    obtain ⟨a, ha, hrec⟩ := except_bind_eq_ok hrec
    injection hrec with hrec
    refine ⟨a, ha, ?_⟩
    rw [hrec]
    obtain ⟨ng, _, h⟩ := except_bind_eq_ok h
    split at h
    · split at h
      · cases h
      · obtain ⟨q, _, h⟩ := except_bind_eq_ok h
        simp only [Option.isSome_some, if_true] at h
        injection h with h
        injection h with _ h2
        exact h2.symm
    · split at h
      · cases h
      · obtain ⟨q, _, h⟩ := except_bind_eq_ok h
        obtain ⟨inode, _, h⟩ := except_bind_eq_ok h
        obtain ⟨m, _, h⟩ := except_bind_eq_ok h
        cases m with
        | none =>
          injection h with h
          injection h with _ h2
          exact h2.symm
        | some i =>
          obtain ⟨r, _, h⟩ := except_bind_eq_ok h
          injection h with h
          injection h with _ h2
          exact h2.symm

/-! ## Object sizes -/

/-- C12: with 8-byte keys, values and pointers, the leaf node (7 pairs of 16
bytes, an 8-byte count, an 8-byte sibling pointer) occupies 128 bytes, the
internal node (14 separators of 8 bytes, an 8-byte group pointer, a 1-byte
child count, padded to 8-byte alignment) occupies 128 bytes, and the node
group (14 nodes, a 1-byte used count, a 1-byte kind flag, padded) occupies
`14 * 128 + 8` bytes: the three `static_assert`s on `sizeof` hold. -/
theorem C12_node_layouts_exact :
    LeafNode.layout.size = 7 * 16 + 8 + 8 ∧
    LeafNode.layout.size = CACHE_LINE_SIZE ∧
    membersEnd [arrayOf uint64_t 14, pointer_t, uint8_t] = 14 * 8 + 8 + 1 ∧
    InternalNode.layout.size = CACHE_LINE_SIZE ∧
    NodeGroup.layout.size = CACHE_LINE_SIZE * 14 + 8 ∧
    CACHE_LINE_SIZE = 128 ∧
    LeafNode.layout.align = 8 ∧ InternalNode.layout.align = 8 ∧ NodeGroup.layout.align = 8 := by
  decide

/-! ## `insertIntoUnderfulLeafNode` on leaves with room -/

/-- C13: on the empty leaf `LeafNode{}` the call writes `ln->kv[-1]` for every
key and value (the index it would return is -1), and so does the call with
key 20 on the leaf `[(10,100)]`; with key 5 on that leaf the call stays
inside the array and returns slot 0, which then holds `(5,50)`. -/
theorem C13_leaf_insert_writes_before_array :
    (∀ (k : Key) (v : Value),
      insertIntoUnderfulLeafNode LeafNode.init k v = .error (.outOfBounds (-1))) ∧
    insertIntoUnderfulLeafNode (leafOf [(10, 100)] .null) 20 200 = .error (.outOfBounds (-1)) ∧
    insertIntoUnderfulLeafNode (leafOf [(10, 100)] .null) 5 50
      = .ok (leafOf [(5, 50), (0, 0)] .null, 0) := by
  refine ⟨fun k v => rfl, ?_, ?_⟩ <;> decide

/-! ## The split of a full root leaf -/

/-- C14: for every height-0 tree whose root leaf holds 7 entries, whatever the
keys, and every key and value, `insert` does not return: the second copy loop
of the split reads `ln->kv[7]`. -/
theorem C14_full_root_insert_out_of_bounds (t : CSBtree) (ln : LeafNode) (k : Key) (v : Value)
    (hh : t.height = 0) (hroot : loadLeaf t t.root_ = .ok ln) (hn : ln.num_entries = 7) :
    insert t k v = .error (.outOfBounds 7) := by
  unfold insert
  rw [if_pos hh, hroot, except_ok_bind, if_neg (by omega)]
  unfold splitRootLeaf
  rw [if_neg (not_not.mpr hn)]
  obtain ⟨new_root, lc1, hl, _⟩ := splitLeftCopy_ok t.groups.length ln
    { LeafNode.init with sibling := .node t.groups.length 1 } hn
  rw [hl, except_ok_bind]
  show (splitRightCopy ln lc1 LeafNode.init >>= _) = _
  rw [splitRightCopy_out_of_bounds ln lc1 LeafNode.init hn]
  rfl

/-- C14 (witness): the root leaf with keys 1..7 and the pair `(8, 80)`. -/
theorem C14_full_root_insert_out_of_bounds_witness :
    (leafTree full7).height = 0 ∧
    loadLeaf (leafTree full7) (leafTree full7).root_ = .ok (leafTree full7).heapLeaf ∧
    (leafTree full7).heapLeaf.num_entries = 7 ∧
    insert (leafTree full7) 8 80 = .error (.outOfBounds 7) :=
  ⟨rfl, rfl, rfl,
    C14_full_root_insert_out_of_bounds (leafTree full7) (leafTree full7).heapLeaf 8 80
      rfl rfl rfl⟩

/-- C18: the node group allocated by the split has `num_used = 0`, the value
set by the `NodeGroup` constructor: neither the stores into slots 0 and 1 nor
the rest of the split path change it.  Evaluated on the last steps of the
split for a root leaf with keys 1..7. -/
theorem C18_new_group_used_count_zero :
    (NodeGroup.new false).num_used = 0 ∧
    (∀ lc rc : LeafNode, (splitGroup lc rc).num_used = 0) ∧
    ∃ r,
      splitInstall (leafTree full7) 0 sampleRoot
          (leafOf [(1, 10), (2, 20), (3, 30), (4, 40)] (.node 0 1))
          { LeafNode.init with num_entries := 3 } 2 20 = .ok r ∧
      r.tree.groups.map (fun g => g.num_used) = [0] ∧
      (∃ l0 l1, loadLeaf r.tree (.node 0 0) = .ok l0 ∧ loadLeaf r.tree (.node 0 1) = .ok l1) := by
  refine ⟨rfl, fun _ _ => rfl, _, rfl, ?_, _, _, rfl, rfl⟩
  decide

/-! ## The path recorded by the insert descent -/

/-- C17: on the height-2 tree `tallTree` the descent `find_helper(3, group 0,
0, 1, &path)` leaves a path of size 1 holding only `(group 0, 0)`: the
recursive call at line 64 is made without `out_path`, so the leaf level
`(group 1, 0)` is not recorded, and the returned iterator is the result of
the key scan (`(leaf, 2)` for key 3, the end sentinel for the absent key 0).
On the height-1 tree `sampleTree` the single level is recorded. -/
theorem C17_descent_records_one_pair :
    find_helper tallTree 3 2 (.group 0) 0 1 (some static_vector.init)
      = .ok ({ ln_ := .node 1 0, offset := 2 },
             some { size := 1
                    array := (Mathlib.Vector.replicate 12 none).set 0
                      (some { ng := .group 0, offset := 0 }) }) ∧
    find_helper tallTree 0 2 (.group 0) 0 1 (some static_vector.init)
      = .ok (end_,
             some { size := 1
                    array := (Mathlib.Vector.replicate 12 none).set 0
                      (some { ng := .group 0, offset := 0 }) }) ∧
    find_helper sampleTree 3 1 (.group 0) 0 1 (some static_vector.init)
      = .ok ({ ln_ := .node 0 0, offset := 0 },
             some { size := 1
                    array := (Mathlib.Vector.replicate 12 none).set 0
                      (some { ng := .group 0, offset := 0 }) }) := by
  refine ⟨?_, ?_, ?_⟩ <;> decide

/-! ## Inserts at height 0 with room in the root leaf -/

/-- For every height-0 tree whose root leaf has `n < 7` entries, all with keys
below `k` (in particular for the empty root leaf), the run of `insert(k, v)`
stores the pair to `ln->kv[-1]`. -/
theorem insert_room_of_gt (t : CSBtree) (ln : LeafNode) (k : Key)
    (v : Value) (hh : t.height = 0) (hroot : loadLeaf t t.root_ = .ok ln)
    (hn : ln.num_entries < 7)
    (hgt : ∀ i : Fin 7, i.val < ln.num_entries → (ln.kv.get i).1 < k) :
    insert t k v = .error (.outOfBounds (-1)) := by
  unfold insert
  rw [if_pos hh, hroot, except_ok_bind, if_pos hn,
    insertIntoUnderfulLeafNode_of_gt ln k v hn hgt]
  rfl

/-! ### Runs that continue past a stray store -/

theorem storeAt_nat (a : CArray value_type 7) (i : Nat) (h : i < 7) (x : value_type) :
    storeAt a (i : Int) x = (a.set ⟨i, h⟩ x, []) := by
  have hc : 0 ≤ (i : Int) ∧ (i : Int).toNat < 7 := ⟨Int.natCast_nonneg i, by simpa using h⟩
  unfold storeAt
  rw [dif_pos hc]
  simp

/-- A store that `writeAt` accepts is the same store in `storeAt`, with
nothing stray. -/
theorem storeAt_of_writeAt (a a' : CArray value_type 7) (i : Int) (x : value_type)
    (h : writeAt a i x = .ok a') : storeAt a i x = (a', []) := by
  unfold writeAt at h
  unfold storeAt
  by_cases hc : 0 ≤ i ∧ i.toNat < 7
  · rw [dif_pos hc] at h ⊢
    injection h with h
    rw [h]
  · rw [dif_neg hc] at h
    cases h

/-- With at most 6 entries the shifting loop makes no stray store and ends
with `back` between -1 and the start value. -/
theorem traced_shiftLoop_total (k : Key) :
    ∀ (j : Nat) (kv : CArray value_type 7), j ≤ 6 →
      ∃ (kv' : CArray value_type 7) (b : Int),
        Traced.shiftLoop k j kv = .ok (kv', b, []) ∧ -1 ≤ b ∧ b < (j : Int) := by
  intro j
  induction j with
  | zero =>
    intro kv _
    exact ⟨kv, -1, rfl, le_refl _, by decide⟩
  | succ j ih =>
    intro kv hj
    have hj7 : j < 7 := by omega
    have hj1 : j + 1 < 7 := by omega
    unfold Traced.shiftLoop
    rw [readAt_nat kv j hj7, except_ok_bind]
    by_cases hgt : k > (kv.get ⟨j, hj7⟩).1
    · rw [if_pos hgt]
      have hw : storeAt kv ((j : Int) + 1) (kv.get ⟨j, hj7⟩)
          = (kv.set ⟨j + 1, hj1⟩ (kv.get ⟨j, hj7⟩), []) := by
        have := storeAt_nat kv (j + 1) hj1 (kv.get ⟨j, hj7⟩)
        simpa using this
      obtain ⟨kv', b, hs, hb1, hb2⟩ := ih (kv.set ⟨j + 1, hj1⟩ (kv.get ⟨j, hj7⟩)) (by omega)
      refine ⟨kv', b, ?_, hb1, by push_cast; omega⟩
      simp only [hw]
      rw [hs, except_ok_bind]
      rfl
    · rw [if_neg hgt]
      exact ⟨kv, (j : Int), rfl, by omega, by push_cast; omega⟩

/-- On every leaf with room the continuing run of `insertIntoUnderfulLeafNode`
returns: the entry count is one higher, the sibling link is kept, and the
returned `back` lies between -1 and `n - 1`. -/
theorem traced_leaf_insert_total (ln : LeafNode) (k : Key) (v : Value)
    (hn : ln.num_entries < 7) :
    ∃ (ln' : LeafNode) (b : Int) (stray : Stray),
      Traced.insertIntoUnderfulLeafNode ln k v = .ok (ln', b, stray) ∧
      ln'.num_entries = ln.num_entries + 1 ∧ ln'.sibling = ln.sibling ∧
      -1 ≤ b ∧ b < (ln.num_entries : Int) := by
  have hcount : (ln.num_entries + 1) % 2 ^ 64 = ln.num_entries + 1 :=
    Nat.mod_eq_of_lt (by norm_num; omega)
  unfold Traced.insertIntoUnderfulLeafNode
  by_cases h0 : ln.num_entries = 0
  · have hb : toInt32 (u64sub ln.num_entries 1) = -1 := by rw [h0]; rfl
    simp only [hb]
    rw [if_pos (by decide)]
    exact ⟨_, (-1 : Int), _, rfl, hcount, rfl, le_refl _, by omega⟩
  · have hback : toInt32 (u64sub ln.num_entries 1) = ((ln.num_entries - 1 : Nat) : Int) :=
      toInt32_u64sub_one _ (by omega) (by norm_num; omega)
    obtain ⟨kv', b, hs, hb1, hb2⟩ :=
      traced_shiftLoop_total k (ln.num_entries - 1 + 1) ln.kv (by omega)
    simp only [hback, Int.toNat_ofNat]
    rw [if_neg (by omega), hs]
    exact ⟨_, b, _, rfl, hcount, rfl, hb1, by omega⟩

/-- The continuing run agrees with the stopping one wherever the latter
returns, and then nothing is stray: the shifting loop. -/
theorem traced_shiftLoop_of_shiftLoop (k : Key) :
    ∀ (j : Nat) (kv kv' : CArray value_type 7) (b : Int),
      shiftLoop k j kv = .ok (kv', b) → Traced.shiftLoop k j kv = .ok (kv', b, []) := by
  intro j
  induction j with
  | zero =>
    intro kv kv' b h
    unfold shiftLoop at h
    injection h with h
    injection h with h1 h2
    subst h1
    subst h2
    rfl
  | succ j ih =>
    intro kv kv' b h
    unfold shiftLoop at h
    unfold Traced.shiftLoop
    obtain ⟨e, he, h⟩ := except_bind_eq_ok h
    rw [he, except_ok_bind]
    by_cases hgt : k > e.1
    · rw [if_pos hgt] at h ⊢
      obtain ⟨kv1, hw, h⟩ := except_bind_eq_ok h
      simp only [storeAt_of_writeAt _ _ _ _ hw]
      rw [ih kv1 kv' b h, except_ok_bind]
      rfl
    · rw [if_neg hgt] at h ⊢
      injection h with h
      injection h with h1 h2
      subst h1
      subst h2
      rfl

theorem except_pure_bind {α β : Type} (x : α) (f : α → Except Fault β) :
    ((pure x : Except Fault α) >>= f) = f x := rfl

theorem except_ok_pair_inj {α β : Type} {a a' : α} {b b' : β}
    (h : (Except.ok (a, b) : Except Fault (α × β)) = .ok (a', b')) : a = a' ∧ b = b' := by
  cases h
  exact ⟨rfl, rfl⟩

/-- The continuing run agrees with the stopping one wherever the latter
returns: `insertIntoUnderfulLeafNode`. -/
theorem traced_leaf_insert_of_leaf_insert (ln ln' : LeafNode) (k : Key) (v : Value) (b : Int)
    (h : insertIntoUnderfulLeafNode ln k v = .ok (ln', b)) :
    Traced.insertIntoUnderfulLeafNode ln k v = .ok (ln', b, []) := by
  unfold insertIntoUnderfulLeafNode at h
  unfold Traced.insertIntoUnderfulLeafNode
  by_cases hneg : toInt32 (u64sub ln.num_entries 1) < 0
  · rw [if_pos hneg, except_pure_bind] at h
    rw [if_pos hneg, except_pure_bind]
    obtain ⟨kv2, hw, h⟩ := except_bind_eq_ok h
    obtain ⟨h1, h2⟩ := except_ok_pair_inj h
    have hst : storeAt ln.kv (toInt32 (u64sub ln.num_entries 1)) (k, v) = (kv2, []) :=
      storeAt_of_writeAt _ _ _ _ hw
    have h2' : toInt32 (u64sub ln.num_entries 1) = b := h2
    simp only [hst, List.nil_append]
    rw [← h1, ← h2']
  · rw [if_neg hneg] at h
    rw [if_neg hneg]
    obtain ⟨p, hs, h⟩ := except_bind_eq_ok h
    obtain ⟨kv1, back⟩ := p
    obtain ⟨kv2, hw, h⟩ := except_bind_eq_ok h
    obtain ⟨h1, h2⟩ := except_ok_pair_inj h
    have hst : storeAt kv1 back (k, v) = (kv2, []) := storeAt_of_writeAt _ _ _ _ hw
    rw [traced_shiftLoop_of_shiftLoop k _ _ _ _ hs, except_ok_bind]
    have h2' : back = b := h2
    simp only [hst, List.nil_append]
    rw [← h1, ← h2']

/-- The continuing run agrees with the stopping one wherever the latter
returns: `insert`. -/
theorem traced_insert_of_insert (t : CSBtree) (k : Key) (v : Value) (r : InsertResult)
    (h : insert t k v = .ok r) : Traced.insert t k v = .ok (r, []) := by
  unfold insert at h
  unfold Traced.insert
  by_cases hh : t.height = 0
  · rw [if_pos hh] at h ⊢
    obtain ⟨ln, hl, h⟩ := except_bind_eq_ok h
    rw [hl, except_ok_bind]
    by_cases hn : ln.num_entries < 7
    · rw [if_pos hn] at h ⊢
      obtain ⟨p, hi, h⟩ := except_bind_eq_ok h
      obtain ⟨ln', back⟩ := p
      obtain ⟨t', hs, h⟩ := except_bind_eq_ok h
      have hr := Except.ok.inj h
      rw [traced_leaf_insert_of_leaf_insert ln ln' k v back hi, except_ok_bind]
      show (storeLeaf t t.root_ ln' >>= _) = _
      rw [hs, except_ok_bind, ← hr]
    · rw [if_neg hn] at h ⊢
      rw [h]
      rfl
  · rw [if_neg hh] at h
    cases h

/-- C20: for every height-0 tree whose root leaf has `n < 7` entries and every
key and value, the run of `insert` returns `inserted = true`, the root leaf's
entry count becomes exactly `n + 1`, height stays 0, the root reference and
the leaf's sibling link are unchanged, and no node group is created (`buf` is
left alone as well).  The store of the pair itself may fall outside the array
and is then listed as stray. -/
theorem C20_insert_with_room_frame (t : CSBtree) (ln : LeafNode) (k : Key) (v : Value)
    (hh : t.height = 0) (hroot : loadLeaf t t.root_ = .ok ln) (hn : ln.num_entries < 7) :
    ∃ (r : InsertResult) (stray : Stray) (ln' : LeafNode),
      Traced.insert t k v = .ok (r, stray) ∧ r.inserted = true ∧
      loadLeaf r.tree r.tree.root_ = .ok ln' ∧ ln'.num_entries = ln.num_entries + 1 ∧
      r.tree.height = 0 ∧ r.tree.root_ = t.root_ ∧ ln'.sibling = ln.sibling ∧
      r.tree.groups.length = t.groups.length ∧ r.tree.buf = t.buf := by
  obtain ⟨ln', b, stray, hins, hcount, hsib, _, _⟩ := traced_leaf_insert_total ln k v hn
  obtain ⟨t', hstore, hload, hheight, hrootp⟩ := storeLeaf_of_loadLeaf t t.root_ ln ln' hroot
  obtain ⟨hlen, hbuf⟩ := storeLeaf_frame t t' t.root_ ln' hstore
  refine ⟨{ it := { ln_ := t.root_, offset := b }, inserted := true, tree := t' }, stray, ln',
    ?_, rfl, ?_, hcount, ?_, hrootp, hsib, hlen, hbuf⟩
  · unfold Traced.insert
    rw [if_pos hh, hroot, except_ok_bind, if_pos hn, hins, except_ok_bind]
    show (storeLeaf t t.root_ ln' >>= _) = _
    rw [hstore]
    rfl
  · show loadLeaf t' t'.root_ = .ok ln'
    rw [hrootp]
    exact hload
  · show t'.height = 0
    rw [hheight]
    exact hh

/-- C20 (witness): the constructor's tree (empty root leaf) and the pair
`(5, 50)`, whose store is the stray one. -/
theorem C20_insert_with_room_frame_witness :
    create.height = 0 ∧
    loadLeaf create create.root_ = .ok create.heapLeaf ∧
    create.heapLeaf.num_entries < 7 ∧
    ∃ (r : InsertResult) (stray : Stray) (ln' : LeafNode),
      Traced.insert create 5 50 = .ok (r, stray) ∧ r.inserted = true ∧
      loadLeaf r.tree r.tree.root_ = .ok ln' ∧
      ln'.num_entries = create.heapLeaf.num_entries + 1 ∧
      r.tree.height = 0 ∧ r.tree.root_ = create.root_ ∧
      ln'.sibling = create.heapLeaf.sibling ∧
      r.tree.groups.length = create.groups.length ∧ r.tree.buf = create.buf :=
  ⟨rfl, rfl, by decide, C20_insert_with_room_frame create create.heapLeaf 5 50 rfl rfl (by decide)⟩

/-! ## `find` after the first insert -/

/-- C3: after the single insert `(k, v)` into the constructor's tree the pair
has gone to `ln->kv[-1]` and the root leaf counts one entry whose slot 0 still
holds `(0, 0)`; `find(0)` then returns the iterator `(root leaf, 0)` although
key 0 was not inserted (shown for `(5, 50)` and, in general, for every first
pair), while `find(7)` and `find(5)` return the end sentinel. -/
theorem C3_find_reports_phantom_key :
    (∃ r, Traced.insert create 5 50 = .ok (r, [(-1, (5, 50))]) ∧
      r.tree.heapLeaf.entries = [(0, 0)] ∧
      find r.tree 0 = .ok { ln_ := .heapLeaf, offset := 0 } ∧
      ({ ln_ := .heapLeaf, offset := 0 } : iterator) ≠ end_ ∧
      find r.tree 7 = .ok end_ ∧
      find r.tree 5 = .ok end_) ∧
    (∀ (k : Key) (v : Value), ∃ r, Traced.insert create k v = .ok (r, [(-1, (k, v))]) ∧
      find r.tree 0 = .ok { ln_ := .heapLeaf, offset := 0 }) := by
  refine ⟨⟨_, rfl, ?_, ?_, ?_, ?_, ?_⟩, fun k v => ⟨_, rfl, rfl⟩⟩ <;> decide

/-! ## Insert sequences and the structural bounds -/

/-- C11: no insert sequence with at least one insert runs to completion from
the constructor's tree (the first insert stores to `ln->kv[-1]`), and the
split of a root leaf never runs to completion on any tree (assertion, or read
of `ln->kv[7]`): the code establishes the bounds on no tree other than the
empty one. -/
theorem C11_no_insert_sequence_completes :
    (∀ (k : Key) (v : Value) (rest : List (Key × Value)),
      ∃ e, insertAll create ((k, v) :: rest) = .error e) ∧
    (∀ (t : CSBtree) (ln : LeafNode) (k : Key) (v : Value),
      ∃ e, splitRootLeaf t ln k v = .error e) ∧
    (∀ (k : Key) (v : Value) (ops : List (Key × Value)),
      ∃ e, insertAll (leafTree full7) ((k, v) :: ops) = .error e) := by
  refine ⟨fun k v rest => ⟨_, rfl⟩, splitRootLeaf_faults, fun k v ops => ⟨_, rfl⟩⟩

/-! ## The separator scan -/

/-- C15: for every internal node and key `k`, if some index `i` below
`num_children` has `k <= children[i]`, then `searchInternalNode` returns the
node's child group together with the smallest such index, and a call of
`find_helper` that scans this node above the leaf level continues in that same
child. -/
theorem C15_search_returns_first_child (inode : InternalNode) (k : Key)
    (hex : ∃ i : Fin 14, i.val < inode.num_children ∧ k ≤ inode.children.get i) :
    ∃ i : Fin 14, i.val < inode.num_children ∧ k ≤ inode.children.get i ∧
      (∀ j : Fin 14, j.val < i.val → ¬ k ≤ inode.children.get j) ∧
      searchInternalNode inode k
        = .ok { ng := inode.child_node_group, offset := (i.val : Int) } ∧
      ∀ (t : CSBtree) (fuel : Nat) (node_group : Ptr) (offset : Int) (depth : Nat)
        (out_path out_path' : Option static_vector) (ng : NodeGroup) (p : Ptr),
        recordPath out_path node_group offset = .ok out_path' →
        loadGroup t node_group = .ok ng → depth ≠ t.height → ng.internal = true →
        slotPtr node_group offset = .ok p → loadInternal t p = .ok inode →
        find_helper t k (fuel + 1) node_group offset depth out_path
          = (find_helper t k fuel inode.child_node_group (i.val : Int) (depth + 1) none
              >>= fun r => .ok (r.1, out_path')) := by
  obtain ⟨i, ⟨hi, hk⟩, hmin⟩ :=
    exists_first (fun i : Fin 14 => i.val < inode.num_children ∧ k ≤ inode.children.get i) hex
  have hfirst : ∀ j : Fin 14, j.val < i.val → ¬ k ≤ inode.children.get j :=
    fun j hj hkj => hmin j hj ⟨by omega, hkj⟩
  have hs : searchLoop inode k inode.num_children 0 = .ok (some i.val) :=
    searchLoop_found inode k i inode.num_children 0 (Nat.zero_le _) (by omega) hk
      (fun j _ hj => hfirst j hj)
  refine ⟨i, hi, hk, hfirst, ?_, ?_⟩
  · unfold searchInternalNode
    rw [hs]
    rfl
  · intro t fuel node_group offset depth out_path out_path' ng p hrec hg hd hint hp hin
    exact find_helper_descends t k fuel node_group offset depth out_path out_path' ng p inode
      i.val hrec hg hd hint hp hin hs

/-- C15 (witness): the two-child root with separator 4 and key 3. -/
theorem C15_search_returns_first_child_witness :
    (∃ i : Fin 14, i.val < sampleRoot.num_children ∧ 3 ≤ sampleRoot.children.get i) ∧
    ∃ i : Fin 14, i.val < sampleRoot.num_children ∧ 3 ≤ sampleRoot.children.get i ∧
      (∀ j : Fin 14, j.val < i.val → ¬ 3 ≤ sampleRoot.children.get j) ∧
      searchInternalNode sampleRoot 3
        = .ok { ng := sampleRoot.child_node_group, offset := (i.val : Int) } ∧
      ∀ (t : CSBtree) (fuel : Nat) (node_group : Ptr) (offset : Int) (depth : Nat)
        (out_path out_path' : Option static_vector) (ng : NodeGroup) (p : Ptr),
        recordPath out_path node_group offset = .ok out_path' →
        loadGroup t node_group = .ok ng → depth ≠ t.height → ng.internal = true →
        slotPtr node_group offset = .ok p → loadInternal t p = .ok sampleRoot →
        find_helper t 3 (fuel + 1) node_group offset depth out_path
          = (find_helper t 3 fuel sampleRoot.child_node_group (i.val : Int) (depth + 1) none
              >>= fun r => .ok (r.1, out_path')) :=
  ⟨⟨0, by decide, by decide⟩,
    C15_search_returns_first_child sampleRoot 3 ⟨0, by decide, by decide⟩⟩

/-! ## `find` on a tree of height 0 -/

/-- C16: for every height-0 tree whose root leaf has `n <= 7` entries and
every key `k`, `find(k)` returns; it returns the iterator `(root leaf, i)` when
`i` is the smallest index below `n` whose key equals `k`, and it returns the
end sentinel exactly when no index below `n` holds `k`. -/
theorem C16_find_in_root_leaf (t : CSBtree) (ln : LeafNode) (k : Key)
    (hh : t.height = 0) (hroot : loadLeaf t t.root_ = .ok ln) (hn : ln.num_entries ≤ 7) :
    (∃ it, find t k = .ok it) ∧
    (∀ i : Fin 7, i.val < ln.num_entries → (ln.kv.get i).1 = k →
        (∀ j : Fin 7, j.val < i.val → (ln.kv.get j).1 ≠ k) →
        find t k = .ok { ln_ := t.root_, offset := (i.val : Int) }) ∧
    (find t k = .ok end_ ↔ ∀ i : Fin 7, i.val < ln.num_entries → (ln.kv.get i).1 ≠ k) := by
  have hfound : ∀ i : Fin 7, i.val < ln.num_entries → (ln.kv.get i).1 = k →
      (∀ j : Fin 7, j.val < i.val → (ln.kv.get j).1 ≠ k) →
      find t k = .ok { ln_ := t.root_, offset := (i.val : Int) } := by
    intro i hi hk hmin
    unfold find
    rw [if_pos hh, hroot, except_ok_bind,
      scanLeaf_found ln k i ln.num_entries 0 (Nat.zero_le _) (by omega) hk
        (fun j _ hj => hmin j hj)]
    rfl
  have hnone : (∀ i : Fin 7, i.val < ln.num_entries → (ln.kv.get i).1 ≠ k) →
      find t k = .ok end_ := by
    intro hne
    unfold find
    rw [if_pos hh, hroot, except_ok_bind,
      scanLeaf_none ln k ln.num_entries 0 (by omega) (fun j _ hj => hne j (by omega))]
    rfl
  have hcases : (∃ i : Fin 7, i.val < ln.num_entries ∧ (ln.kv.get i).1 = k) →
      ∃ i : Fin 7, find t k = .ok { ln_ := t.root_, offset := (i.val : Int) } := by
    intro hex
    obtain ⟨i, ⟨hi, hk⟩, hmin⟩ :=
      exists_first (fun i : Fin 7 => i.val < ln.num_entries ∧ (ln.kv.get i).1 = k) hex
    exact ⟨i, hfound i hi hk (fun j hj hkj => hmin j hj ⟨by omega, hkj⟩)⟩
  refine ⟨?_, hfound, ?_, hnone⟩
  · by_cases hex : ∃ i : Fin 7, i.val < ln.num_entries ∧ (ln.kv.get i).1 = k
    · obtain ⟨i, hi⟩ := hcases hex
      exact ⟨_, hi⟩
    · exact ⟨_, hnone (fun i hi hk => hex ⟨i, hi, hk⟩)⟩
  · intro hend i hi hk
    obtain ⟨i0, hi0⟩ := hcases ⟨i, hi, hk⟩
    rw [hi0] at hend
    injection hend with hend
    have hoff : ((i0.val : Nat) : Int) = -1 := congrArg iterator.offset hend
    omega

/-- C16 (witness): the root leaf `[(10,100)]` and key 10. -/
theorem C16_find_in_root_leaf_witness :
    (leafTree [(10, 100)]).height = 0 ∧
    loadLeaf (leafTree [(10, 100)]) (leafTree [(10, 100)]).root_
      = .ok (leafTree [(10, 100)]).heapLeaf ∧
    (leafTree [(10, 100)]).heapLeaf.num_entries ≤ 7 ∧
    (∃ it, find (leafTree [(10, 100)]) 10 = .ok it) ∧
    (∀ i : Fin 7, i.val < (leafTree [(10, 100)]).heapLeaf.num_entries →
        ((leafTree [(10, 100)]).heapLeaf.kv.get i).1 = 10 →
        (∀ j : Fin 7, j.val < i.val → ((leafTree [(10, 100)]).heapLeaf.kv.get j).1 ≠ 10) →
        find (leafTree [(10, 100)]) 10
          = .ok { ln_ := (leafTree [(10, 100)]).root_, offset := (i.val : Int) }) ∧
    (find (leafTree [(10, 100)]) 10 = .ok end_ ↔
      ∀ i : Fin 7, i.val < (leafTree [(10, 100)]).heapLeaf.num_entries →
        ((leafTree [(10, 100)]).heapLeaf.kv.get i).1 ≠ 10) :=
  ⟨rfl, rfl, by decide,
    C16_find_in_root_leaf (leafTree [(10, 100)]) (leafTree [(10, 100)]).heapLeaf 10
      rfl rfl (by decide)⟩

/-! ## What a successful `find` points at -/

/-- An iterator other than the end sentinel returned by `find_helper` (called
without path accumulator) designates a leaf slot below the leaf's entry count
whose key is `k`. -/
theorem find_helper_hit (t : CSBtree) (k : Key) :
    ∀ (fuel : Nat) (node_group : Ptr) (offset : Int) (depth : Nat) (it : iterator)
      (op : Option static_vector),
      find_helper t k fuel node_group offset depth none = .ok (it, op) → it ≠ end_ →
      ∃ (ln : LeafNode) (i : Nat) (h : i < 7), it.offset = (i : Int) ∧
        loadLeaf t it.ln_ = .ok ln ∧ i < ln.num_entries ∧ (ln.kv.get ⟨i, h⟩).1 = k := by
  intro fuel
  induction fuel with
  | zero =>
    intro node_group offset depth it op h _
    unfold find_helper at h
    cases h
  | succ fuel ih =>
    intro node_group offset depth it op h hne
    unfold find_helper at h
    rw [show recordPath none node_group offset = .ok none from rfl, except_ok_bind] at h
    obtain ⟨ng, _, h⟩ := except_bind_eq_ok h
    split at h
    · split at h
      · cases h
      · obtain ⟨p, _, h⟩ := except_bind_eq_ok h
        simp only [Option.isSome_none, Bool.false_eq_true, if_false] at h
        obtain ⟨ln, hl, h⟩ := except_bind_eq_ok h
        obtain ⟨m, hm, h⟩ := except_bind_eq_ok h
        cases m with
        | none =>
          injection h with h
          injection h with h1 _
          exact absurd h1.symm hne
        | some i =>
          injection h with h
          injection h with h1 _
          subst h1
          obtain ⟨_, hlt, hi7, hk⟩ := scanLeaf_some ln k i ln.num_entries 0 hm
          exact ⟨ln, i, hi7, rfl, hl, by omega, hk⟩
    · split at h
      · cases h
      · obtain ⟨p, _, h⟩ := except_bind_eq_ok h
        obtain ⟨inode, _, h⟩ := except_bind_eq_ok h
        obtain ⟨m, _, h⟩ := except_bind_eq_ok h
        cases m with
        | none =>
          injection h with h
          injection h with h1 _
          exact absurd h1.symm hne
        | some i =>
          obtain ⟨r, hr, h⟩ := except_bind_eq_ok h
          injection h with h
          injection h with h1 _
          subst h1
          exact ih inode.child_node_group (i : Int) (depth + 1) r.1 r.2 hr hne

/-- C19: for every tree, of any height, and every key `k`: whenever `find(k)`
returns an iterator other than the end sentinel, the iterator designates a
leaf, its offset is non-negative and below that leaf's entry count, and
dereferencing it yields a pair whose key is `k`.  (Array accesses are checked,
so the bounds on entry and child counts are not needed as assumptions.) -/
theorem C19_find_hit_is_valid (t : CSBtree) (k : Key) (it : iterator)
    (hfind : find t k = .ok it) (hne : it ≠ end_) :
    ∃ (ln : LeafNode) (p : value_type),
      loadLeaf t it.ln_ = .ok ln ∧ 0 ≤ it.offset ∧ it.offset < (ln.num_entries : Int) ∧
      iterator.deref t it = .ok p ∧ p.1 = k := by
  have key : ∃ (ln : LeafNode) (i : Nat) (h : i < 7), it.offset = (i : Int) ∧
      loadLeaf t it.ln_ = .ok ln ∧ i < ln.num_entries ∧ (ln.kv.get ⟨i, h⟩).1 = k := by
    unfold find at hfind
    split at hfind
    · obtain ⟨ln, hl, h⟩ := except_bind_eq_ok hfind
      obtain ⟨m, hm, h⟩ := except_bind_eq_ok h
      cases m with
      | none =>
        injection h with h
        exact absurd h.symm hne
      | some i =>
        injection h with h
        subst h
        obtain ⟨_, hlt, hi7, hk⟩ := scanLeaf_some ln k i ln.num_entries 0 hm
        exact ⟨ln, i, hi7, rfl, hl, by omega, hk⟩
    · obtain ⟨inode, _, h⟩ := except_bind_eq_ok hfind
      obtain ⟨x, _, h⟩ := except_bind_eq_ok h
      split at h
      · obtain ⟨r, hr, h⟩ := except_bind_eq_ok h
        injection h with h
        subst h
        exact find_helper_hit t k t.height x.ng x.offset 1 r.1 r.2 hr hne
      · injection h with h
        exact absurd h.symm hne
  obtain ⟨ln, i, hi7, hoff, hl, hlt, hk⟩ := key
  refine ⟨ln, ln.kv.get ⟨i, hi7⟩, hl, by omega, by omega, ?_, hk⟩
  unfold iterator.deref
  rw [hl, except_ok_bind, hoff]
  exact readAt_nat ln.kv i hi7

/-- C19 (witness): `find(3)` on the height-1 tree with leaves 1..4 and 5..8
returns slot 2 of the left leaf. -/
theorem C19_find_hit_is_valid_witness :
    find sampleTree 3 = .ok { ln_ := .node 0 0, offset := 2 } ∧
    ({ ln_ := .node 0 0, offset := 2 } : iterator) ≠ end_ ∧
    ∃ (ln : LeafNode) (p : value_type),
      loadLeaf sampleTree ({ ln_ := .node 0 0, offset := 2 } : iterator).ln_ = .ok ln ∧
      0 ≤ ({ ln_ := .node 0 0, offset := 2 } : iterator).offset ∧
      ({ ln_ := .node 0 0, offset := 2 } : iterator).offset < (ln.num_entries : Int) ∧
      iterator.deref sampleTree { ln_ := .node 0 0, offset := 2 } = .ok p ∧ p.1 = 3 :=
  ⟨by decide, by decide,
    C19_find_hit_is_valid sampleTree 3 { ln_ := .node 0 0, offset := 2 } (by decide) (by decide)⟩

end CSB
